import Mathlib

/-!
Verification development for the dagrunner DAG runner
(`src/dagrunner/runner.py`).

The Python code is shallowly embedded: JSON-like Python values become the
inductive type `Value`, Python dicts become association lists read with
last-binding-wins lookup (`pyDictGet`, mirroring repeated `d[k] = v`
assignment), raising code returns `Except`, and the regular expressions
`_PLACEHOLDER_RE` / `_KWARG_RE` become deterministic scanners that are exact
for these patterns (each character class excludes its follow-up delimiter, so
greedy matching never backtracks).
-/

namespace Dagrunner

/-- Single-quote character, written via its code point. -/
def sqChar : Char := Char.ofNat 39

/-- Single-quote as a string. -/
def sqStr : String := String.singleton sqChar

/-- JSON-like Python values as stored in a task definition / task result.
`vnull` is Python `None`. -/
inductive Value where
  | vnull : Value
  | vbool : Bool → Value
  | vint : Int → Value
  | vstr : String → Value
  | vlist : List Value → Value
  | vdict : List (String × Value) → Value

/-- Python dict lookup on an association list: the last binding wins,
mirroring repeated `d[k] = v` assignment building the dict. -/
def pyDictGet {α : Type} (kvs : List (String × α)) (k : String) : Option α :=
  kvs.reverse.lookup k

mutual
/-- Python `repr` of a `Value` (used by `str` on containers).  String
escaping inside `repr` of a string is not modelled beyond the quotes; the
claims only evaluate it on quote-free strings. -/
def pyRepr : Value → String
  | .vnull => "None"
  | .vbool b => if b then "True" else "False"
  | .vint n => toString n
  | .vstr s => sqStr ++ s ++ sqStr
  | .vlist xs => "[" ++ String.intercalate ", " (pyReprList xs) ++ "]"
  | .vdict kvs => "\x7b" ++ String.intercalate ", " (pyReprKVs kvs) ++ "\x7d"

def pyReprList : List Value → List String
  | [] => []
  | v :: vs => pyRepr v :: pyReprList vs

def pyReprKVs : List (String × Value) → List String
  | [] => []
  | (k, v) :: vs => (sqStr ++ k ++ sqStr ++ ": " ++ pyRepr v) :: pyReprKVs vs
end

/-- Python `str` of a `Value`. -/
def pyStr : Value → String
  | .vstr s => s
  | v => pyRepr v

/-- The normalized result dict produced for every executed or skipped task:
`{"returncode": ..., "stdout": ..., "stderr": ..., "return_value": ...}`.
A result dict lacking the `"return_value"` key (shell/script backends) is
modelled with `return_value = vnull`: the only read is
`outputs[task_id].get("return_value")`, which yields `None` either way. -/
structure TaskResult where
  returncode : Int
  stdout : String
  stderr : String
  return_value : Value

/-- The per-job run context `task_outputs : Dict[str, Dict[str, Any]]`. -/
abbrev Outputs := List (String × TaskResult)

/-- Character class `[A-Za-z0-9_\-]` of `_PLACEHOLDER_RE` group 1 and of
`_KWARG_RE` group 1. -/
def isIdChar (c : Char) : Bool := c.isAlphanum || c == '_' || c == '-'

/-- Character class `[A-Za-z0-9_\.]` of `_PLACEHOLDER_RE` group 2. -/
def isFieldChar (c : Char) : Bool := c.isAlphanum || c == '_' || c == '.'

/-- A valid `_PLACEHOLDER_RE`/`_KWARG_RE` group-1 capture: nonempty run of
id characters. -/
def ValidId (s : String) : Prop := s ≠ "" ∧ ∀ c ∈ s.data, isIdChar c

/-- A valid `_PLACEHOLDER_RE` group-2 capture: nonempty run of field
characters. -/
def ValidField (s : String) : Prop := s ≠ "" ∧ ∀ c ∈ s.data, isFieldChar c

/-- Drop an expected literal from the front of a character list. -/
def dropLiteral : List Char → List Char → Option (List Char)
  | [], s => some s
  | _ :: _, [] => none
  | p :: ps, c :: cs => if c = p then dropLiteral ps cs else none

/-- The literal head `"${outputs."` of `_PLACEHOLDER_RE`. -/
def placeholderHead : List Char := "$\x7boutputs.".data

/-- The closing brace of a reference token. -/
def closeB : Char := Char.ofNat 125

/-- The text of a full `_PLACEHOLDER_RE` token `${outputs.<tid>.<field>}`. -/
def tokStr (tid fld : String) : String :=
  "$\x7boutputs." ++ tid ++ "." ++ fld ++ "\x7d"

/-- Match `_PLACEHOLDER_RE` at the start of `l`: on success return the two
capture groups and the remaining characters.  This is exact for the regex
`\$\{outputs\.([A-Za-z0-9_\-]+)\.([A-Za-z0-9_\.]+)\}`: `.` is not in the
group-1 class and `}` is not in the group-2 class, so the greedy `+` never
needs to backtrack. -/
def parse_placeholder (l : List Char) : Option (String × String × List Char) :=
  match dropLiteral placeholderHead l with
  | none => none
  | some r0 =>
    let tid := r0.takeWhile isIdChar
    let r1 := r0.dropWhile isIdChar
    if tid.isEmpty then none else
    match r1 with
    | c :: r2 =>
      if c = '.' then
        let fld := r2.takeWhile isFieldChar
        let r3 := r2.dropWhile isFieldChar
        if fld.isEmpty then none else
        match r3 with
        | c2 :: r4 => if c2 = closeB then some (String.mk tid, String.mk fld, r4) else none
        | [] => none
      else none
    | [] => none

/-- Whether `pat` is a prefix of `l`. -/
def listStartsWith : List Char → List Char → Bool
  | [], _ => true
  | _ :: _, [] => false
  | p :: ps, c :: cs => p == c && listStartsWith ps cs

/-- Python `s.split(sep)` for a one-character separator (both separators in
the source, `"."` and `","`, are one character): always at least one group,
empty groups preserved. -/
def splitOnChar (sep : Char) : List Char → List (List Char)
  | [] => [[]]
  | c :: cs =>
    match splitOnChar sep cs with
    | [] => [[]]
    | g :: gs => if c = sep then [] :: g :: gs else (c :: g) :: gs

/-- Python `str.strip()`: remove leading and trailing whitespace. -/
def pyStrip (s : String) : String :=
  String.mk (((s.data.dropWhile Char.isWhitespace).reverse.dropWhile
    Char.isWhitespace).reverse)

/-- Python `s.replace(t, r)` for a one-character pattern (the only use,
`shlex.quote`, replaces the single-quote character). -/
def replaceChar (t : Char) (r : List Char) : List Char → List Char
  | [] => []
  | c :: cs => if c = t then r ++ replaceChar t r cs else c :: replaceChar t r cs

/-- Strip an optional leading `return_value` segment (and optional dot) from
a field path, as in `_get_output_field`. -/
def stripRVHead (fp : String) : String :=
  if listStartsWith "return_value".data fp.data then
    match fp.data.drop 12 with
    | '.' :: r2 => String.mk r2
    | r => String.mk r
  else fp

/-- The descent loop of `_get_output_field`: follow path parts through
nested dicts; any missing key or non-dict intermediate yields Python `None`
(the function returns `None` from inside the loop). -/
def descend : Value → List String → Value
  | cur, [] => cur
  | .vdict kvs, p :: ps =>
    match pyDictGet kvs p with
    | some v => descend v ps
    | none => .vnull
  | _, _ :: _ => .vnull

/-- `_get_output_field(outputs, task_id, field_path)`.  A missing task id
raises `KeyError` (modelled as `.error`); every other outcome returns a
value, with Python `None` as `.vnull`. -/
def get_output_field (outputs : Outputs) (task_id : String) (field_path : String) :
    Except String Value :=
  match pyDictGet outputs task_id with
  | none => .error ("No outputs for task " ++ sqStr ++ task_id ++ sqStr)
  | some r =>
    match r.return_value with
    | .vnull => .ok .vnull
    | cur =>
      if field_path = "" then .ok cur
      else
        let fp := stripRVHead field_path
        if fp = "" then .ok cur
        else .ok (descend cur ((splitOnChar '.' fp.data).map String.mk))

/-- The replacement text used by `_sub` inside `resolve_placeholders` for a
matched token: the stringified field value, or the literal matched text when
`_get_output_field` raises `KeyError` for a missing task id. -/
def subRepl (outputs : Outputs) (tid fld : String) : List Char :=
  match get_output_field outputs tid fld with
  | .ok v => (pyStr v).data
  | .error _ => (tokStr tid fld).data

/-- `_PLACEHOLDER_RE.sub(_sub, s)`: left-to-right scan, replacing each
non-overlapping match and continuing after it.  The fuel argument is a
termination device only; it is always called with the input length, which
suffices since every step consumes at least one character. -/
def placeholder_sub_aux (outputs : Outputs) : Nat → List Char → List Char
  | 0, l => l
  | _ + 1, [] => []
  | n + 1, c :: cs =>
    match parse_placeholder (c :: cs) with
    | some (tid, fld, rest) => subRepl outputs tid fld ++ placeholder_sub_aux outputs n rest
    | none => c :: placeholder_sub_aux outputs n cs

/-- `_PLACEHOLDER_RE.sub(_sub, s)` on a string. -/
def placeholder_sub (outputs : Outputs) (s : String) : String :=
  String.mk (placeholder_sub_aux outputs s.data.length s.data)

mutual
/-- `resolve_placeholders(obj, outputs)`: recursively resolve placeholders
in strings inside `obj`.  A string that is exactly one token resolves to the
raw referenced value (propagating the `KeyError` of a missing task id); any
other string goes through embedded substitution. -/
def resolve_placeholders : Value → Outputs → Except String Value
  | .vdict kvs, o =>
    match resolveKVs kvs o with
    | .ok kvs2 => .ok (.vdict kvs2)
    | .error e => .error e
  | .vlist xs, o =>
    match resolveList xs o with
    | .ok xs2 => .ok (.vlist xs2)
    | .error e => .error e
  | .vstr s, o =>
    match parse_placeholder s.data with
    | some (tid, fld, []) => get_output_field o tid fld
    | _ => .ok (.vstr (placeholder_sub o s))
  | v, _ => .ok v

def resolveList : List Value → Outputs → Except String (List Value)
  | [], _ => .ok []
  | v :: vs, o =>
    match resolve_placeholders v o, resolveList vs o with
    | .ok v2, .ok vs2 => .ok (v2 :: vs2)
    | .error e, _ => .error e
    | .ok _, .error e => .error e

def resolveKVs : List (String × Value) → Outputs → Except String (List (String × Value))
  | [], _ => .ok []
  | (k, v) :: vs, o =>
    match resolve_placeholders v o, resolveKVs vs o with
    | .ok v2, .ok vs2 => .ok ((k, v2) :: vs2)
    | .error e, _ => .error e
    | .ok _, .error e => .error e
end

/-! ## Shell command assembly (`run_task`, `"shell"` branch) -/

/-- Python truthiness of a `Value` (used by `x or default`). -/
def pyTruthy : Value → Bool
  | .vnull => false
  | .vbool b => b
  | .vint n => n != 0
  | .vstr s => s != ""
  | .vlist xs => !xs.isEmpty
  | .vdict kvs => !kvs.isEmpty

/-- Python iteration over a value (`for a in args_list`); non-iterables
raise `TypeError`. -/
def pyIter : Value → Except String (List Value)
  | .vlist xs => .ok xs
  | .vstr s => .ok (s.data.map (fun c => .vstr (String.singleton c)))
  | .vdict kvs => .ok (kvs.map (fun kv => .vstr kv.1))
  | _ => .error "TypeError: object is not iterable"

/-- Safe characters of `shlex.quote`: ASCII word characters and
`@ % + = : , . / -` (the complement of its unsafe-character regex, which
uses the ASCII flag). -/
def shlexSafeChar (c : Char) : Bool :=
  (c.isAlphanum && c.toNat ≤ 127) || "@%+=:,./_-".data.contains c

/-- `shlex.quote` (POSIX branch of `_quote_token_for_shell`). -/
def shlexQuote (s : String) : String :=
  if s = "" then sqStr ++ sqStr
  else if s.data.all shlexSafeChar then s
  else sqStr ++ String.mk (replaceChar sqChar (sqStr ++ "\"" ++ sqStr ++ "\"" ++ sqStr).data s.data) ++ sqStr

/-- The character loop of `subprocess.list2cmdline` for one argument:
returns the emitted output and the pending backslash buffer. -/
def cmdlineScan : List Char → List Char → List Char × List Char
  | [], buf => ([], buf)
  | c :: cs, buf =>
    if c = '\\' then cmdlineScan cs (buf ++ ['\\'])
    else if c = '"' then
      let r := cmdlineScan cs []
      (List.replicate (2 * buf.length) '\\' ++ ['\\', '"'] ++ r.1, r.2)
    else
      let r := cmdlineScan cs []
      (buf ++ [c] ++ r.1, r.2)

/-- `subprocess.list2cmdline([s])` (Windows branch of
`_quote_token_for_shell`). -/
def list2cmdline_one (s : String) : String :=
  let needquote := s.data.contains ' ' || s.data.contains '\t' || s = ""
  let r := cmdlineScan s.data []
  let core := r.1 ++ r.2 ++ (if needquote then r.2 else [])
  if needquote then String.mk ('"' :: (core ++ ['"'])) else String.mk core

/-- `_quote_token_for_shell(token)`: `None` becomes the empty string, other
values are stringified, then quoted for the platform shell. -/
def quote_token_for_shell (isWin : Bool) (token : Value) : String :=
  let s := match token with
    | .vnull => ""
    | v => pyStr v
  if isWin then list2cmdline_one s else shlexQuote s

/-- The literal head `"${kwargs."` of `_KWARG_RE`, also the substring tested
by `"${kwargs." in base_cmd`. -/
def kwargHead : List Char := "$\x7bkwargs.".data

/-- The text of a full `_KWARG_RE` token `${kwargs.<key>}`. -/
def kwTokStr (key : String) : String := "$\x7bkwargs." ++ key ++ "\x7d"

/-- Match `_KWARG_RE` (`\$\{kwargs\.([A-Za-z0-9_\-]+)\}`) at the start of
`l`; exact for the same reason as `parse_placeholder`. -/
def parse_kwarg (l : List Char) : Option (String × List Char) :=
  match dropLiteral kwargHead l with
  | none => none
  | some r0 =>
    let key := r0.takeWhile isIdChar
    let r1 := r0.dropWhile isIdChar
    if key.isEmpty then none else
    match r1 with
    | c :: r2 => if c = closeB then some (String.mk key, r2) else none
    | [] => none

/-- The replacement used by `_sub_kw`: the stringified value (`None` as the
empty string) when the key is present, the literal token otherwise. -/
def kwRepl (kvs : List (String × Value)) (key : String) : List Char :=
  match pyDictGet kvs key with
  | some v => (match v with | .vnull => "" | v2 => pyStr v2).data
  | none => (kwTokStr key).data

/-- `_KWARG_RE.sub(_sub_kw, cmd)` scan (fuel as in
`placeholder_sub_aux`). -/
def kwarg_sub_aux (kvs : List (String × Value)) : Nat → List Char → List Char
  | 0, l => l
  | _ + 1, [] => []
  | n + 1, c :: cs =>
    match parse_kwarg (c :: cs) with
    | some (key, rest) => kwRepl kvs key ++ kwarg_sub_aux kvs n rest
    | none => c :: kwarg_sub_aux kvs n cs

/-- `_KWARG_RE.sub(_sub_kw, cmd)` on a string. -/
def kwarg_sub (kvs : List (String × Value)) (s : String) : String :=
  String.mk (kwarg_sub_aux kvs s.data.length s.data)

/-- Whether `pat` occurs as a contiguous sublist of `l` (Python substring
containment). -/
def listIsInfixOf (pat : List Char) : List Char → Bool
  | [] => pat.isEmpty
  | c :: cs => listStartsWith pat (c :: cs) || listIsInfixOf pat cs

/-- Python `"${kwargs." in base_cmd`. -/
def kwargMarkerIn (s : String) : Bool := listIsInfixOf kwargHead s.data

/-- Whether a full `_KWARG_RE` match starts at some position of the list:
whether the text contains a well-formed keyword-reference token
`${kwargs.<key>}`. -/
def hasKwargTokenAux : List Char → Bool
  | [] => false
  | c :: cs => (parse_kwarg (c :: cs)).isSome || hasKwargTokenAux cs

/-- Whether the string contains a well-formed keyword-reference token. -/
def hasKwargToken (s : String) : Bool := hasKwargTokenAux s.data

/-- The final command string assembled by the `"shell"` branch of
`run_task` (lines 432-461): substitute `${kwargs.*}` tokens when the marker
substring is present, append quoted positional arguments, and append
`--key value` pairs only when the marker substring is absent.  Python
exceptions (`TypeError` on a non-string command or non-iterable args) are
`.error`, caught by `run_task`. -/
def shell_final_cmd (isWin : Bool) (command args kwargs : Option Value) :
    Except String String :=
  match command.getD (.vstr "") with
  | .vstr base_cmd =>
    let args_list := if pyTruthy (args.getD (.vlist [])) then args.getD (.vlist []) else .vlist []
    let kwargs_map := if pyTruthy (kwargs.getD (.vdict [])) then kwargs.getD (.vdict []) else .vdict []
    let final_cmd :=
      match kwargs_map with
      | .vdict kvs => if kwargMarkerIn base_cmd then kwarg_sub kvs base_cmd else base_cmd
      | _ => base_cmd
    match pyIter args_list with
    | .error e => .error e
    | .ok argVals =>
      let toks1 := argVals.map (quote_token_for_shell isWin)
      let toks2 :=
        match kwargs_map with
        | .vdict kvs =>
          if kwargMarkerIn base_cmd then []
          else kvs.flatMap (fun kv =>
            [quote_token_for_shell isWin (.vstr ("--" ++ kv.1)),
             quote_token_for_shell isWin kv.2])
        | _ => []
      let extra := toks1 ++ toks2
      .ok (if extra.isEmpty then final_cmd else final_cmd ++ " " ++ String.intercalate " " extra)
  | _ => .error "TypeError: command is not a string"

/-! ## Tasks, `run_task`, and the `run_job` loop -/

/-- A task definition.  `id`, `type` and `depends_on` are identifier
strings; the payload fields are optional JSON values (`none` = key absent).
The source resolves placeholders over the whole task dict; since the
placeholder pattern `${...}` cannot occur inside an identifier (see
`resolve_placeholders_of_no_dollar` below, `resolve_placeholders` is the
identity on strings with no `$`), resolution is modelled on the payload
fields. -/
structure Task where
  id : String
  type : String
  command : Option Value := none
  path : Option Value := none
  args : Option Value := none
  kwargs : Option Value := none
  depends_on : List String := []

/-- Resolve placeholders in one optional task field. -/
def resolveOpt (o : Outputs) : Option Value → Except String (Option Value)
  | none => .ok none
  | some v =>
    match resolve_placeholders v o with
    | .ok v2 => .ok (some v2)
    | .error e => .error e

/-- `resolve_placeholders(task, task_outputs)` on a task definition; a
`KeyError` raised by any exact-match placeholder aborts the whole
resolution. -/
def resolve_task (o : Outputs) (t : Task) : Except String Task :=
  match resolveOpt o t.command, resolveOpt o t.path, resolveOpt o t.args, resolveOpt o t.kwargs with
  | .ok c, .ok p, .ok a, .ok k =>
    .ok { t with command := c, path := p, args := a, kwargs := k }
  | .error e, _, _, _ => .error e
  | _, .error e, _, _ => .error e
  | _, _, .error e, _ => .error e
  | _, _, _, .error e => .error e

/-- An invocation of one of the three execution backends (`run_shell`,
`run_script`, `run_function`); `script` carries the configured path (its
resolution against the project directory is a filesystem concern),
`func` carries the dotted path and raw args/kwargs. -/
inductive BackendCall where
  | shell : String → BackendCall
  | script : String → BackendCall
  | func : String → Value → Value → BackendCall

/-- The no-op success result returned by `run_task` in dry-run mode. -/
def noopResult : TaskResult := ⟨0, "", "", .vnull⟩

/-- The result produced when the `try` block of `run_task` catches an
exception `e`. -/
def errResult (e : String) : TaskResult := ⟨1, "", e, .vnull⟩

/-- The synthetic result recorded for a task skipped because of a failed
dependency. -/
def skipResult : TaskResult := ⟨2, "", "skipped due to failed dependency", .vnull⟩

/-- `run_task(task, interpreter, logf, dry_run)`.  The external world
(subprocess execution) is the oracle `backend`; the returned list records
the backend invocations made (empty in dry-run mode or when an exception is
caught before dispatch).  Log writing and interpreter discovery are outside
the core. -/
def run_task (backend : BackendCall → TaskResult) (isWin : Bool) (t : Task)
    (dry_run : Bool) : TaskResult × List BackendCall :=
  if dry_run then (noopResult, [])
  else if t.type = "shell" then
    match shell_final_cmd isWin t.command t.args t.kwargs with
    | .ok cmd => (backend (.shell cmd), [.shell cmd])
    | .error e => (errResult e, [])
  else if t.type = "script" then
    match t.path with
    | some (.vstr p) => (backend (.script p), [.script p])
    | some _ => (errResult "TypeError: script path is not a string", [])
    | none => (errResult "KeyError: path", [])
  else if t.type = "function" then
    match t.path with
    | some (.vstr p) =>
      (backend (.func p (t.args.getD (.vlist [])) (t.kwargs.getD (.vdict []))),
       [.func p (t.args.getD (.vlist [])) (t.kwargs.getD (.vdict []))])
    | some _ => (errResult "TypeError: function path is not a string", [])
    | none => (errResult "KeyError: path", [])
  else (errResult ("Unknown task type: " ++ t.type), [])

/-- `task_outputs.get(d, {}).get("returncode", 0) != 0`. -/
def depFailed (o : Outputs) (d : String) : Bool :=
  match pyDictGet o d with
  | some r => r.returncode != 0
  | none => false

/-- The evolving state of one `run_job` execution: the run context plus an
instrumentation trace of the tasks handed to `run_task` and the backend
invocations made. -/
structure RunState where
  outputs : Outputs
  dispatched : List String
  calls : List BackendCall

/-- The task actually used by one `run_job` iteration: the
placeholder-resolved task, or — when resolution raises — the original task
(the source logs the error and leaves `task` unchanged). -/
def resolvedTask (o : Outputs) (task0 : Task) : Task :=
  match resolve_task o task0 with
  | .ok t => t
  | .error _ => task0

/-- One iteration of the `run_job` task loop (lines 539-561): resolve
placeholders (on failure, log and keep the original task), skip when a
declared dependency has a recorded non-zero returncode (unless
`ignore_deps`), otherwise dispatch to `run_task`; record the result. -/
def run_step (backend : BackendCall → TaskResult) (isWin dry_run ignore_deps : Bool)
    (st : RunState) (task0 : Task) : RunState :=
  let task := resolvedTask st.outputs task0
  let deps := task.depends_on
  if !deps.isEmpty && !ignore_deps && deps.any (depFailed st.outputs) then
    { st with outputs := st.outputs ++ [(task.id, skipResult)] }
  else
    let rc := run_task backend isWin task dry_run
    { outputs := st.outputs ++ [(task.id, rc.1)],
      dispatched := st.dispatched ++ [task.id],
      calls := st.calls ++ rc.2 }

/-- The `run_job` loop over an already-ordered task list. -/
def run_tasks (backend : BackendCall → TaskResult) (isWin dry_run ignore_deps : Bool)
    (st : RunState) (tasks : List Task) : RunState :=
  tasks.foldl (run_step backend isWin dry_run ignore_deps) st

/-! ## `resolve_dependencies` -/

/-- State of the `visit` recursion: the output list and the `seen` set. -/
structure VisitState where
  resolved : List Task
  seen : List String

mutual
/-- The recursive `visit` of `resolve_dependencies`.  The fuel models the
source's unbounded recursion: on a cyclic graph Python recurses without
bound, and the model reports `.error` when the fuel (strictly larger than
any acyclic dependency chain at the call sites used here) runs out.  An
unknown dependency id is the source's `KeyError` from `task_map[dep]`. -/
def visit (tm : List (String × Task)) : Nat → Task → VisitState → Except String VisitState
  | 0, _, _ => .error "RecursionError: maximum recursion depth exceeded"
  | n + 1, t, st =>
    if t.id ∈ st.seen then .ok st
    else
      match visitDeps tm n t.depends_on st with
      | .ok st2 => .ok ⟨st2.resolved ++ [t], st2.seen ++ [t.id]⟩
      | .error e => .error e
termination_by n _ _ => (n, 0)

/-- Visit the dependencies of a task in declaration order. -/
def visitDeps (tm : List (String × Task)) : Nat → List String → VisitState → Except String VisitState
  | _, [], st => .ok st
  | n, d :: ds, st =>
    match pyDictGet tm d with
    | none => .error ("KeyError: " ++ sqStr ++ d ++ sqStr)
    | some td =>
      match visit tm n td st with
      | .ok st2 => visitDeps tm n ds st2
      | .error e => .error e
termination_by n ds _ => (n, ds.length + 1)
end

/-- The top-level `for task in tasks: visit(task)` loop. -/
def visitAll (tm : List (String × Task)) (fuel : Nat) :
    List Task → VisitState → Except String VisitState
  | [], st => .ok st
  | t :: ts, st =>
    match visit tm fuel t st with
    | .ok st2 => visitAll tm fuel ts st2
    | .error e => .error e

/-- `resolve_dependencies(tasks)`: depth-first ordering seeded in
declaration order.  Fuel `tasks.length + 1` bounds the recursion depth of
any run on an acyclic graph (a dependency chain visits distinct ids). -/
def resolve_dependencies (tasks : List Task) : Except String (List Task) :=
  let tm := tasks.map (fun t => (t.id, t))
  match visitAll tm (tasks.length + 1) tasks ⟨[], []⟩ with
  | .ok st => .ok st.resolved
  | .error e => .error e

/-! ## Task selection and config filtering -/

/-- One token of a translated `fnmatch` pattern. -/
inductive GlobTok where
  | lit : Char → GlobTok
  | anyOne : GlobTok
  | star : GlobTok
  | cls : Bool → List (Char × Char) → GlobTok

/-- Items of a character class body: single characters and `a-b` ranges
(`fnmatch.translate` chunking; its merge of reversed ranges is not
modelled, no claim exercises it). -/
def parseClassItems : List Char → List (Char × Char)
  | [] => []
  | a :: '-' :: b :: rest => (a, b) :: parseClassItems rest
  | a :: rest => (a, a) :: parseClassItems rest

/-- Scan for the closing `]` of a character class. -/
def findClose : List Char → Option (List Char × List Char)
  | [] => none
  | c :: rest =>
    if c = ']' then some ([], rest)
    else (findClose rest).map (fun pr => (c :: pr.1, pr.2))

/-- Split off a class body, honouring `fnmatch.translate`: a `]` right
after `[` (or after `[!`) belongs to the class. -/
def splitClass (l : List Char) : Option (List Char × List Char) :=
  match l with
  | [] => none
  | c :: rest =>
    if c = ']' then (findClose rest).map (fun pr => (c :: pr.1, pr.2))
    else findClose (c :: rest)

/-- `findClose` consumes at least the closing bracket. -/
theorem findClose_length : ∀ {l s r : List Char}, findClose l = some (s, r) →
    r.length < l.length := by
  intro l
  induction l with
  | nil => intro s r h; simp [findClose] at h
  | cons c cs ih =>
    intro s r h
    rw [findClose] at h
    by_cases hc : c = ']'
    · rw [if_pos hc] at h
      injection h with h2
      injection h2 with h3 h4
      subst h4
      simp
    · rw [if_neg hc, Option.map_eq_some'] at h
      obtain ⟨pr, hpr, heq⟩ := h
      have h4 : pr.2 = r := congrArg Prod.snd heq
      subst h4
      have := ih hpr
      simpa using Nat.lt_succ_of_lt this

/-- `splitClass` consumes at least the closing bracket. -/
theorem splitClass_length {l s r : List Char} (h : splitClass l = some (s, r)) :
    r.length < l.length := by
  cases l with
  | nil => simp [splitClass] at h
  | cons c cs =>
    rw [splitClass] at h
    by_cases hc : c = ']'
    · rw [if_pos hc, Option.map_eq_some'] at h
      obtain ⟨pr, hpr, heq⟩ := h
      have h4 : pr.2 = r := congrArg Prod.snd heq
      subst h4
      have := findClose_length hpr
      simpa using Nat.lt_succ_of_lt this
    · rw [if_neg hc] at h
      exact findClose_length h

/-- Translate an `fnmatch` pattern into tokens; an unclosed `[` is a
literal. -/
def parseGlob : List Char → List GlobTok
  | [] => []
  | '*' :: rest => .star :: parseGlob rest
  | '?' :: rest => .anyOne :: parseGlob rest
  | '[' :: '!' :: r2 =>
    match h2 : splitClass r2 with
    | some (stuff, rest2) => .cls true (parseClassItems stuff) :: parseGlob rest2
    | none => .lit '[' :: parseGlob ('!' :: r2)
  | '[' :: r2 =>
    match h2 : splitClass r2 with
    | some (stuff, rest2) => .cls false (parseClassItems stuff) :: parseGlob rest2
    | none => .lit '[' :: parseGlob r2
  | c :: rest => .lit c :: parseGlob rest
termination_by l => l.length
decreasing_by
  all_goals simp_wf
  all_goals try omega
  all_goals (have h3 := splitClass_length h2; omega)

/-- Membership of a character in a class. -/
def clsMatch (neg : Bool) (items : List (Char × Char)) (c : Char) : Bool :=
  let inSet := items.any (fun r => r.1 ≤ c && c ≤ r.2)
  if neg then !inSet else inSet

/-- Full-string glob matching against translated tokens. -/
def globMatch : List GlobTok → List Char → Bool
  | [], [] => true
  | [], _ :: _ => false
  | .star :: ps, s =>
    globMatch ps s ||
      (match s with
       | [] => false
       | _ :: s2 => globMatch (.star :: ps) s2)
  | .anyOne :: ps, _ :: s => globMatch ps s
  | .lit c :: ps, c2 :: s => c == c2 && globMatch ps s
  | .cls neg items :: ps, c :: s => clsMatch neg items c && globMatch ps s
  | _ :: _, [] => false
termination_by ps s => (s.length, ps.length)

/-- `fnmatch.fnmatch(name, pat)` (POSIX case normalization is the
identity). -/
def fnmatchB (name : String) (pat : String) : Bool :=
  globMatch (parseGlob pat.data) name.data

/-- `_fnmatch_any(name, patterns)`. -/
def fnmatch_any (name : String) (patterns : List String) : Bool :=
  patterns.any (fnmatchB name)

/-- `_normalize_id_list(values)`: split each entry on commas, strip
whitespace, drop empties. -/
def normalize_id_list (values : List String) : List String :=
  values.flatMap (fun v =>
    (((splitOnChar ',' v.data).map (fun g => pyStrip (String.mk g)))).filter (· ≠ ""))

/-- `_select_task_ids`.  The source computes Python sets; they are modelled
as lists read only through membership and emptiness (set-union is append,
set-difference is filter; the guards `if exclude_ids:` / `if exclude_globs:`
are dropped since filtering by an empty list is the identity). -/
def select_task_ids (all_ids include_ids include_globs exclude_ids exclude_globs :
    List String) : List String :=
  let selected :=
    if include_ids.isEmpty && include_globs.isEmpty then all_ids
    else include_ids.filter (fun i => all_ids.contains i) ++
      all_ids.filter (fun i => fnmatch_any i include_globs)
  (selected.filter (fun i => !exclude_ids.contains i)).filter
    (fun i => !fnmatch_any i exclude_globs)

/-- Combined dependency weight of the tasks not yet in `result`; the
decreasing measure of `_dependency_closure`'s while loop. -/
def depSum (result : List String) : List Task → Nat
  | [] => 0
  | t :: ts => (if t.id ∈ result then 0 else t.depends_on.length) + depSum result ts

/-- `List.lookup` finds a present pair. -/
theorem lookup_mem {α : Type} {l : List (String × α)} {k : String} {v : α}
    (h : l.lookup k = some v) : (k, v) ∈ l := by
  induction l with
  | nil => simp [List.lookup] at h
  | cons p ps ih =>
    obtain ⟨a, b⟩ := p
    rw [List.lookup] at h
    split at h
    · next heq =>
      injection h with h2
      subst h2
      have : k = a := eq_of_beq heq
      subst this
      exact List.mem_cons_self _ _
    · exact List.mem_cons_of_mem _ (ih h)

/-- `pyDictGet` finds a present pair. -/
theorem pyDictGet_mem {α : Type} {l : List (String × α)} {k : String} {v : α}
    (h : pyDictGet l k = some v) : (k, v) ∈ l := by
  have := lookup_mem h
  exact (List.mem_reverse).1 this

/-- Looking a task up in the task map yields a task of `tasks` with the
looked-up id. -/
theorem taskMap_lookup {tasks : List Task} {tid : String} {td : Task}
    (h : pyDictGet (tasks.map (fun t => (t.id, t))) tid = some td) :
    td ∈ tasks ∧ td.id = tid := by
  have hm := pyDictGet_mem h
  simp only [List.mem_map] at hm
  obtain ⟨t, ht, heq⟩ := hm
  have h1 : t.id = tid := congrArg Prod.fst heq
  have h2 : t = td := congrArg Prod.snd heq
  subst h2
  exact ⟨ht, h1⟩

/-- Growing the reached set never grows `depSum`. -/
theorem depSum_mono (result : List String) (tid : String) :
    ∀ ts : List Task, depSum (tid :: result) ts ≤ depSum result ts := by
  intro ts
  induction ts with
  | nil => simp [depSum]
  | cons u us ihu =>
    simp only [depSum]
    have h1 : (if u.id ∈ tid :: result then 0 else u.depends_on.length) ≤
        (if u.id ∈ result then 0 else u.depends_on.length) := by
      by_cases hu : u.id ∈ result
      · simp [hu, List.mem_cons]
      · split <;> omega
    omega

/-- Adding a newly reached id removes at least its own task's dependency
weight from `depSum`. -/
theorem depSum_insert {tasks : List Task} {result : List String} {tid : String}
    {td : Task} (htd : td ∈ tasks) (hid : td.id = tid) (hnew : tid ∉ result) :
    depSum (tid :: result) tasks + td.depends_on.length ≤ depSum result tasks := by
  induction tasks with
  | nil => cases htd
  | cons t ts ih =>
    rcases List.mem_cons.1 htd with rfl | hmem
    · simp only [depSum]
      rw [if_pos (by simp [hid]), if_neg (by rw [hid]; exact hnew)]
      have := depSum_mono result tid ts
      omega
    · have := ih hmem
      simp only [depSum]
      have h1 : (if t.id ∈ tid :: result then 0 else t.depends_on.length) ≤
          (if t.id ∈ result then 0 else t.depends_on.length) := by
        by_cases hti : t.id ∈ result
        · simp [hti, List.mem_cons]
        · split <;> omega
      omega

/-- The while loop of `_dependency_closure`: pop, skip already-reached ids,
fail on unknown ids, otherwise add the id and push its dependencies.
Python's list is a LIFO stack (push at the end, pop from the end); it is
modelled head-first, so a push of `deps` prepends `deps.reverse`.  The
result set is a list read through membership. -/
def closure_loop (tasks : List Task) : List String → List String → Except String (List String)
  | [], result => .ok result
  | tid :: stack, result =>
    if h1 : tid ∈ result then closure_loop tasks stack result
    else
      match h2 : pyDictGet (tasks.map (fun t => (t.id, t))) tid with
      | none => .error ("Task " ++ sqStr ++ tid ++ sqStr ++ " not found.")
      | some td => closure_loop tasks (td.depends_on.reverse ++ stack) (tid :: result)
termination_by stack result => stack.length + depSum result tasks
decreasing_by
  all_goals simp_wf
  all_goals try omega
  all_goals
    (obtain ⟨htd, hid⟩ := taskMap_lookup h2
     have := depSum_insert htd hid h1
     omega)

/-- `_dependency_closure(start_ids, task_map)`.  The iteration order of the
Python start set is unspecified; the start list stands in for it (the
resulting membership does not depend on it). -/
def dependency_closure (tasks : List Task) (start : List String) :
    Except String (List String) :=
  closure_loop tasks start []

/-- A job: its ordered task list (other keys of the job dict are carried
through filtering unchanged and are not modelled). -/
structure Job where
  tasks : List Task

/-- A configuration: the ordered `jobs` mapping (JSON objects have unique
keys). -/
structure Config where
  jobs : List (String × Job)

/-- The task filters of the CLI arguments, as received (`-j`/`-t` values
before comma-normalization); `jobs = []` models an absent/falsy `args.jobs`. -/
structure FilterArgs where
  jobs : List String := []
  tasks : List String := []
  task_globs : List String := []
  exclude_tasks : List String := []
  exclude_task_globs : List String := []
  no_deps : Bool := false

/-- The fatal outcomes of `_filter_config_by_args` (each a `SystemExit` or,
for `dependencyNotFound`, a `KeyError` converted to `SystemExit` by the
caller); the suggestion text built with `difflib` is not modelled. -/
inductive FilterError where
  | unknownJob : String → FilterError
  | noTasksAvailable : String → FilterError
  | noTasksMatched : String → List String → List String → FilterError
  | nothingMatched : List String → List String → List String → FilterError
  | dependencyNotFound : String → FilterError

/-- Steps 2-4 of the per-job body of `_filter_config_by_args` (select task
ids, optionally expand to the dependency closure, filter the task list in
declaration order when any filter was given). -/
def job_filtered_tasks (include_tasks include_globs exclude_tasks exclude_globs :
    List String) (with_deps : Bool) (job : Job) : Except String (List Task) :=
  let task_ids := job.tasks.map (fun t => t.id)
  let selected := select_task_ids task_ids include_tasks include_globs exclude_tasks exclude_globs
  let selectedE :=
    if with_deps && !selected.isEmpty then dependency_closure job.tasks selected
    else .ok selected
  match selectedE with
  | .error e => .error e
  | .ok sel =>
    let anyF := !(include_tasks.isEmpty && include_globs.isEmpty &&
      exclude_tasks.isEmpty && exclude_globs.isEmpty)
    .ok (if anyF then job.tasks.filter (fun t => sel.contains t.id) else job.tasks)

/-- The job loop of `_filter_config_by_args`, building `new_jobs`. -/
def process_jobs (cfgJobs : List (String × Job)) (explicit include_tasks include_globs
    exclude_tasks exclude_globs : List String) (with_deps : Bool) :
    List String → Except FilterError (List (String × Job))
  | [] => .ok []
  | jid :: rest =>
    match pyDictGet cfgJobs jid with
    | none => .error (.unknownJob jid)
    | some job =>
      if job.tasks.isEmpty then
        if !(include_tasks.isEmpty && include_globs.isEmpty) then
          if !explicit.isEmpty then .error (.noTasksAvailable jid)
          else process_jobs cfgJobs explicit include_tasks include_globs
            exclude_tasks exclude_globs with_deps rest
        else
          match process_jobs cfgJobs explicit include_tasks include_globs
            exclude_tasks exclude_globs with_deps rest with
          | .ok r => .ok ((jid, job) :: r)
          | .error e => .error e
      else
        match job_filtered_tasks include_tasks include_globs exclude_tasks
          exclude_globs with_deps job with
        | .error e => .error (.dependencyNotFound e)
        | .ok filtered =>
          if !(include_tasks.isEmpty && include_globs.isEmpty) && filtered.isEmpty then
            if !explicit.isEmpty && explicit.contains jid then
              .error (.noTasksMatched jid include_tasks include_globs)
            else process_jobs cfgJobs explicit include_tasks include_globs
              exclude_tasks exclude_globs with_deps rest
          else if !filtered.isEmpty then
            match process_jobs cfgJobs explicit include_tasks include_globs
              exclude_tasks exclude_globs with_deps rest with
            | .ok r => .ok ((jid, { tasks := filtered }) :: r)
            | .error e => .error e
          else process_jobs cfgJobs explicit include_tasks include_globs
            exclude_tasks exclude_globs with_deps rest

/-- `_filter_config_by_args(config, args)`. -/
def filter_config (config : Config) (args : FilterArgs) : Except FilterError Config :=
  if config.jobs.isEmpty then .ok config else
  let job_ids := config.jobs.map (fun p => p.1)
  let explicit := if args.jobs.isEmpty then [] else normalize_id_list args.jobs
  match explicit.find? (fun j => !job_ids.contains j) with
  | some j => .error (.unknownJob j)
  | none =>
    let selected_jobs := if args.jobs.isEmpty then job_ids else explicit
    let include_tasks := normalize_id_list args.tasks
    let include_globs := normalize_id_list args.task_globs
    let exclude_tasks := normalize_id_list args.exclude_tasks
    let exclude_globs := normalize_id_list args.exclude_task_globs
    let with_deps := !args.no_deps
    match process_jobs config.jobs explicit include_tasks include_globs
      exclude_tasks exclude_globs with_deps selected_jobs with
    | .error e => .error e
    | .ok new_jobs =>
      if new_jobs.isEmpty then
        .error (.nothingMatched selected_jobs include_tasks include_globs)
      else .ok { jobs := new_jobs }

/-! ## Scanner lemmas for the placeholder regexes -/

/-- A character list free of `$`, on which a regex scan for `${...}` tokens
can never start a match. -/
def NoDollar (l : List Char) : Prop := ∀ c ∈ l, c ≠ '$'

instance (l : List Char) : Decidable (NoDollar l) :=
  inferInstanceAs (Decidable (∀ c ∈ l, c ≠ '$'))

instance (s : String) : Decidable (ValidId s) :=
  inferInstanceAs (Decidable (s ≠ "" ∧ ∀ c ∈ s.data, isIdChar c))

instance (s : String) : Decidable (ValidField s) :=
  inferInstanceAs (Decidable (s ≠ "" ∧ ∀ c ∈ s.data, isFieldChar c))

theorem dropLiteral_self : ∀ (p l : List Char), dropLiteral p (p ++ l) = some l := by
  intro p
  induction p with
  | nil => intro l; rfl
  | cons c cs ih => intro l; simp [dropLiteral, ih]

theorem dropLiteral_some : ∀ {p l r : List Char}, dropLiteral p l = some r → l = p ++ r := by
  intro p
  induction p with
  | nil =>
    intro l r h
    injection h with h2
  | cons c cs ih =>
    intro l r h
    cases l with
    | nil => simp [dropLiteral] at h
    | cons a as =>
      rw [dropLiteral] at h
      split at h
      · next heq => subst heq; simpa using ih h
      · cases h

theorem string_empty_iff_data {s : String} : s = "" ↔ s.data = [] := by
  constructor
  · intro h; simp [h]
  · intro h
    cases s
    simp_all

/-- `takeWhile`/`dropWhile` on a list whose front satisfies `p` and whose
continuation starts with a failing character. -/
theorem span_exact {p : Char → Bool} :
    ∀ (pre rest : List Char), (∀ c ∈ pre, p c = true) →
      (∀ c, rest.head? = some c → p c = false) →
      (pre ++ rest).takeWhile p = pre ∧ (pre ++ rest).dropWhile p = rest := by
  intro pre
  induction pre with
  | nil =>
    intro rest hpre hrest
    cases rest with
    | nil => simp
    | cons c cs =>
      have hc := hrest c rfl
      simp [List.takeWhile, List.dropWhile, hc]
  | cons a as ih =>
    intro rest hpre hrest
    have ha : p a = true := hpre a (by simp)
    have := ih rest (fun c hc => hpre c (by simp [hc])) hrest
    simp [List.takeWhile, List.dropWhile, ha, this.1, this.2]

theorem placeholderHead_cons : placeholderHead = '$' :: "\x7boutputs.".data := rfl

/-- The token text decomposed into its scanner pieces. -/
theorem tokStr_data (tid fld : String) :
    (tokStr tid fld).data =
      placeholderHead ++ tid.data ++ '.' :: (fld.data ++ [closeB]) := by
  show ("$\x7boutputs." ++ tid ++ "." ++ fld ++ "\x7d").data = _
  simp [String.data_append, placeholderHead]
  rfl

theorem parse_placeholder_none {c : Char} {cs : List Char} (h : c ≠ '$') :
    parse_placeholder (c :: cs) = none := by
  rw [parse_placeholder, placeholderHead_cons]
  rw [dropLiteral, if_neg h]

/-- Matching the regex at a well-formed token succeeds for any
continuation: the group separators `.` and `}` are outside their preceding
character classes, so maximal-munch recognizes exactly the token. -/
theorem stringMk_data (s : String) : String.mk s.data = s := rfl

theorem parse_placeholder_token {tid fld : String} (h1 : ValidId tid) (h2 : ValidField fld)
    (rest : List Char) :
    parse_placeholder ((tokStr tid fld).data ++ rest) = some (tid, fld, rest) := by
  have hne1 : tid.data.isEmpty = false := by
    cases hd : tid.data with
    | nil => exact absurd (string_empty_iff_data.2 hd) h1.1
    | cons a as => rfl
  have hne2 : fld.data.isEmpty = false := by
    cases hd : fld.data with
    | nil => exact absurd (string_empty_iff_data.2 hd) h2.1
    | cons a as => rfl
  have hspan1 := span_exact (p := isIdChar) tid.data ('.' :: (fld.data ++ closeB :: rest))
    (fun c hc => h1.2 c hc)
    (by intro c hc; injection hc with h3; subst h3; rfl)
  have hspan2 := span_exact (p := isFieldChar) fld.data (closeB :: rest)
    (fun c hc => h2.2 c hc)
    (by intro c hc; injection hc with h3; subst h3; rfl)
  have hrw : (tokStr tid fld).data ++ rest =
      placeholderHead ++ (tid.data ++ '.' :: (fld.data ++ closeB :: rest)) := by
    rw [tokStr_data]
    simp
  rw [hrw, parse_placeholder, dropLiteral_self]
  simp [hspan1.1, hspan1.2, hspan2.1, hspan2.2, hne1, hne2, stringMk_data]

/-- A successful regex match reconstructs the input: the matched text is
exactly the token of the two captured groups, and the captures are valid
runs of their character classes. -/
theorem parse_placeholder_some {l : List Char} {tid fld : String} {rest : List Char}
    (h : parse_placeholder l = some (tid, fld, rest)) :
    l = (tokStr tid fld).data ++ rest ∧ ValidId tid ∧ ValidField fld := by
  simp only [parse_placeholder] at h
  split at h
  · cases h
  · next r0 hdrop =>
    have hl : l = placeholderHead ++ r0 := dropLiteral_some hdrop
    split at h
    · cases h
    · next hne1 =>
      split at h
      · next c r2 hr1 =>
        split at h
        · next hdot =>
          subst hdot
          split at h
          · cases h
          · next hne2 =>
            split at h
            · next c2 r4 hr3 =>
              split at h
              · next hcb =>
                subst hcb
                simp only [Option.some.injEq, Prod.mk.injEq] at h
                obtain ⟨h5, h7, h8⟩ := h
                have htid : tid.data = r0.takeWhile isIdChar := by rw [← h5]
                have hfld : fld.data = r2.takeWhile isFieldChar := by rw [← h7]
                subst h8
                have hvid : ValidId tid := by
                  refine ⟨?_, ?_⟩
                  · intro hemp
                    rw [string_empty_iff_data] at hemp
                    rw [htid] at hemp
                    simp [hemp] at hne1
                  · intro c hc
                    rw [htid] at hc
                    exact List.mem_takeWhile_imp hc
                have hvfld : ValidField fld := by
                  refine ⟨?_, ?_⟩
                  · intro hemp
                    rw [string_empty_iff_data] at hemp
                    rw [hfld] at hemp
                    simp [hemp] at hne2
                  · intro c hc
                    rw [hfld] at hc
                    exact List.mem_takeWhile_imp hc
                refine ⟨?_, hvid, hvfld⟩
                rw [tokStr_data, hl]
                have hr0 : r0 = r0.takeWhile isIdChar ++ ('.' :: r2) := by
                  rw [← hr1]
                  exact (List.takeWhile_append_dropWhile (p := isIdChar) (l := r0)).symm
                have hr2 : r2 = r2.takeWhile isFieldChar ++ (closeB :: r4) := by
                  rw [← hr3]
                  exact (List.takeWhile_append_dropWhile (p := isFieldChar) (l := r2)).symm
                rw [htid, hfld]
                conv =>
                  lhs
                  rw [hr0, hr2]
                simp
              · cases h
            · cases h
        · cases h
      · cases h

theorem string_data_inj {a b : String} (h : a.data = b.data) : a = b := by
  cases a
  cases b
  exact congrArg String.mk h

theorem placeholderHead_length : placeholderHead.length = 10 := rfl

theorem parse_placeholder_rest_lt {l : List Char} {tid fld : String} {rest : List Char}
    (h : parse_placeholder l = some (tid, fld, rest)) : rest.length < l.length := by
  obtain ⟨hl, h1, h2⟩ := parse_placeholder_some h
  rw [hl, tokStr_data]
  simp only [List.length_append, List.length_cons]
  have := placeholderHead_length
  omega

theorem sub_aux_nil (o : Outputs) : ∀ n, placeholder_sub_aux o n [] = [] := by
  intro n
  cases n <;> rfl

/-- The scan result does not depend on the fuel once the fuel covers the
input length (every step consumes at least one character). -/
theorem sub_aux_fuel (o : Outputs) :
    ∀ (n : Nat) (l : List Char) (m : Nat), l.length ≤ n → l.length ≤ m →
      placeholder_sub_aux o n l = placeholder_sub_aux o m l := by
  intro n
  induction n with
  | zero =>
    intro l m hn hm
    have : l = [] := List.eq_nil_of_length_eq_zero (by omega)
    subst this
    rw [sub_aux_nil, sub_aux_nil]
  | succ n ih =>
    intro l m hn hm
    cases l with
    | nil => rw [sub_aux_nil, sub_aux_nil]
    | cons c cs =>
      cases m with
      | zero => simp at hm
      | succ m2 =>
        rw [placeholder_sub_aux, placeholder_sub_aux]
        cases hp : parse_placeholder (c :: cs) with
        | none =>
          dsimp only
          simp only [List.length_cons] at hn hm
          rw [ih cs m2 (by omega) (by omega)]
        | some r =>
          obtain ⟨tid, fld, rest⟩ := r
          dsimp only
          have hlt := parse_placeholder_rest_lt hp
          simp only [List.length_cons] at hn hm hlt
          rw [ih rest m2 (by omega) (by omega)]

/-- Scanning past a `$`-free prefix copies it unchanged. -/
theorem sub_aux_clean (o : Outputs) :
    ∀ (pre rest : List Char) (n : Nat), NoDollar pre → (pre ++ rest).length ≤ n →
      placeholder_sub_aux o n (pre ++ rest) =
        pre ++ placeholder_sub_aux o rest.length rest := by
  intro pre
  induction pre with
  | nil =>
    intro rest n hnd hn
    simp only [List.nil_append] at hn ⊢
    exact sub_aux_fuel o n rest rest.length hn le_rfl
  | cons c cs ih =>
    intro rest n hnd hn
    cases n with
    | zero => simp at hn
    | succ m =>
      have hc : c ≠ '$' := hnd c (by simp)
      rw [List.cons_append, placeholder_sub_aux, parse_placeholder_none hc]
      simp only [List.length_append, List.length_cons] at hn
      rw [ih rest m (fun x hx => hnd x (by simp [hx])) (by simp [List.length_append]; omega)]
      simp

/-- Scanning at a well-formed token replaces exactly the token and resumes
after it. -/
theorem sub_aux_tok (o : Outputs) {tid fld : String} (h1 : ValidId tid) (h2 : ValidField fld) :
    ∀ (rest : List Char) (n : Nat), ((tokStr tid fld).data ++ rest).length ≤ n →
      placeholder_sub_aux o n ((tokStr tid fld).data ++ rest) =
        subRepl o tid fld ++ placeholder_sub_aux o rest.length rest := by
  intro rest n hn
  have hcons : (tokStr tid fld).data ++ rest =
      '$' :: ("\x7boutputs.".data ++ (tid.data ++ '.' :: (fld.data ++ [closeB]) ++ rest)) := by
    rw [tokStr_data, placeholderHead_cons]
    simp
  have hlen : rest.length + 1 ≤ n := by
    rw [List.length_append, tokStr_data] at hn
    simp only [List.length_append, List.length_cons] at hn
    have := placeholderHead_length
    omega
  cases n with
  | zero => omega
  | succ m =>
    rw [hcons, placeholder_sub_aux, ← hcons, parse_placeholder_token h1 h2 rest]
    dsimp only
    rw [sub_aux_fuel o m rest rest.length (by omega) le_rfl]

theorem subRepl_absent {o : Outputs} {tid fld : String} (h : pyDictGet o tid = none) :
    subRepl o tid fld = (tokStr tid fld).data := by
  rw [subRepl, get_output_field]
  rw [h]

/-- `resolve_placeholders` on a string that is exactly one token returns
the raw field lookup. -/
theorem resolve_vstr_full {s : String} {o : Outputs} {tid fld : String}
    (h : parse_placeholder s.data = some (tid, fld, [])) :
    resolve_placeholders (.vstr s) o = get_output_field o tid fld := by
  rw [resolve_placeholders]
  rw [h]

/-- `resolve_placeholders` on a string that is not exactly one token runs
the embedded substitution scan. -/
theorem resolve_vstr_embedded {s : String} {o : Outputs}
    (h : ∀ tid fld, parse_placeholder s.data ≠ some (tid, fld, [])) :
    resolve_placeholders (.vstr s) o = .ok (.vstr (placeholder_sub o s)) := by
  rw [resolve_placeholders]
  cases hp : parse_placeholder s.data with
  | none => rfl
  | some r =>
    obtain ⟨tid, fld, rest⟩ := r
    cases rest with
    | nil => exact absurd hp (h tid fld)
    | cons a as => rfl

/-- A `$`-free list scans to itself. -/
theorem sub_aux_id (o : Outputs) {l : List Char} (h : NoDollar l) :
    placeholder_sub_aux o l.length l = l := by
  have := sub_aux_clean o l [] l.length h (by simp)
  simpa [sub_aux_nil] using this

/-- `resolve_placeholders` is the identity on `$`-free strings (used to
justify eliding resolution of `id` / `depends_on` identifier strings in
`resolve_task`). -/
theorem resolve_placeholders_of_no_dollar {s : String} {o : Outputs} (h : NoDollar s.data) :
    resolve_placeholders (.vstr s) o = .ok (.vstr s) := by
  have hpn : ∀ tid fld, parse_placeholder s.data ≠ some (tid, fld, []) := by
    intro tid fld hp
    obtain ⟨hl, h1, h2⟩ := parse_placeholder_some hp
    have hd : '$' ∈ s.data := by
      rw [hl, tokStr_data, placeholderHead_cons]
      simp
    exact h '$' hd rfl
  rw [resolve_vstr_embedded hpn, placeholder_sub, sub_aux_id o h, stringMk_data]

theorem tok_dollar_mem (tid fld : String) : '$' ∈ (tokStr tid fld).data := by
  rw [tokStr_data, placeholderHead_cons]
  simp

/-- A well-formed token contains exactly one `$`. -/
theorem tok_count_dollar {tid fld : String} (h1 : ValidId tid) (h2 : ValidField fld) :
    ((tokStr tid fld).data).count '$' = 1 := by
  have hh : placeholderHead.count '$' = 1 := by decide
  have ht : tid.data.count '$' = 0 := List.count_eq_zero.2 (fun hmem => by
    have := h1.2 _ hmem
    exact absurd this (by decide))
  have hf : fld.data.count '$' = 0 := List.count_eq_zero.2 (fun hmem => by
    have := h2.2 _ hmem
    exact absurd this (by decide))
  rw [tokStr_data]
  simp [List.count_append, List.count_cons, hh, ht, hf]
  decide

/-- The count of `$` in a `$`-free list is zero. -/
theorem noDollar_count {l : List Char} (h : NoDollar l) : l.count '$' = 0 :=
  List.count_eq_zero.2 (fun hmem => (h '$' hmem) rfl)

/-- The scan of a `$`-free prefix followed by a token and more input. -/
theorem sub_decomp_one (o : Outputs) (pre : String) {tid fld : String}
    (hpre : NoDollar pre.data) (h1 : ValidId tid) (h2 : ValidField fld)
    (tail : List Char) :
    placeholder_sub_aux o (pre.data ++ ((tokStr tid fld).data ++ tail)).length
        (pre.data ++ ((tokStr tid fld).data ++ tail)) =
      pre.data ++ (subRepl o tid fld ++ placeholder_sub_aux o tail.length tail) := by
  rw [sub_aux_clean o pre.data ((tokStr tid fld).data ++ tail) _ hpre le_rfl]
  rw [sub_aux_tok o h1 h2 tail _ le_rfl]

theorem subRepl_ok {o : Outputs} {tid fld : String} {v : Value}
    (h : get_output_field o tid fld = .ok v) : subRepl o tid fld = (pyStr v).data := by
  rw [subRepl, h]

/-- Embedded substitution of a single token inside a larger string: the
rest of the string is copied and the token is replaced by `_sub`'s
replacement text. -/
theorem embedded_single (o : Outputs) (pre post : String) {tid fld : String}
    (hpre : NoDollar pre.data) (hpost : NoDollar post.data)
    (h1 : ValidId tid) (h2 : ValidField fld) (hne : pre ≠ "" ∨ post ≠ "") :
    resolve_placeholders (.vstr (pre ++ tokStr tid fld ++ post)) o =
      .ok (.vstr (pre ++ String.mk (subRepl o tid fld) ++ post)) := by
  have hdata : (pre ++ tokStr tid fld ++ post).data =
      pre.data ++ ((tokStr tid fld).data ++ post.data) := by
    simp [String.data_append]
  have hfull : ∀ t0 f0, parse_placeholder (pre ++ tokStr tid fld ++ post).data ≠
      some (t0, f0, []) := by
    intro t0 f0 hp
    rw [hdata] at hp
    rcases hne with hne1 | hne2
    · have hd : pre.data ≠ [] := fun hh => hne1 (string_empty_iff_data.2 hh)
      cases hpd : pre.data with
      | nil => exact hd hpd
      | cons c cs =>
        have hc : c ≠ '$' := hpre c (by rw [hpd]; simp)
        rw [hpd, List.cons_append, parse_placeholder_none hc] at hp
        cases hp
    · by_cases hpd : pre.data = []
      · rw [hpd, List.nil_append, parse_placeholder_token h1 h2 post.data] at hp
        injection hp with hp2
        have : post.data = [] := congrArg (fun q => q.2.2) hp2
        exact hne2 (string_data_inj this)
      · cases hpd2 : pre.data with
        | nil => exact hpd hpd2
        | cons c cs =>
          have hc : c ≠ '$' := hpre c (by rw [hpd2]; simp)
          rw [hpd2, List.cons_append, parse_placeholder_none hc] at hp
          cases hp
  rw [resolve_vstr_embedded hfull, placeholder_sub]
  conv =>
    lhs
    rw [hdata]
  rw [sub_decomp_one o pre hpre h1 h2 post.data, sub_aux_id o hpost]
  refine congrArg _ (congrArg _ (string_data_inj ?_))
  simp [String.data_append]

/-- Embedded substitution of two tokens: each is replaced independently by
its own `_sub` replacement. -/
theorem embedded_double (o : Outputs) (pre mid post : String) {tid1 f1 tid2 f2 : String}
    (hpre : NoDollar pre.data) (hmid : NoDollar mid.data) (hpost : NoDollar post.data)
    (h1 : ValidId tid1) (h2 : ValidField f1) (h3 : ValidId tid2) (h4 : ValidField f2) :
    resolve_placeholders
        (.vstr (pre ++ tokStr tid1 f1 ++ mid ++ tokStr tid2 f2 ++ post)) o =
      .ok (.vstr (pre ++ String.mk (subRepl o tid1 f1) ++ mid ++
        String.mk (subRepl o tid2 f2) ++ post)) := by
  have hdata : (pre ++ tokStr tid1 f1 ++ mid ++ tokStr tid2 f2 ++ post).data =
      pre.data ++ ((tokStr tid1 f1).data ++
        (mid.data ++ ((tokStr tid2 f2).data ++ post.data))) := by
    simp [String.data_append]
  have hcount : (pre ++ tokStr tid1 f1 ++ mid ++ tokStr tid2 f2 ++ post).data.count '$' = 2 := by
    rw [hdata]
    simp [List.count_append, noDollar_count hpre, noDollar_count hmid,
      noDollar_count hpost, tok_count_dollar h1 h2, tok_count_dollar h3 h4]
  have hfull : ∀ t0 f0, parse_placeholder
      (pre ++ tokStr tid1 f1 ++ mid ++ tokStr tid2 f2 ++ post).data ≠
      some (t0, f0, []) := by
    intro t0 f0 hp
    obtain ⟨hl, hv1, hv2⟩ := parse_placeholder_some hp
    rw [List.append_nil] at hl
    rw [hl, tok_count_dollar hv1 hv2] at hcount
    omega
  rw [resolve_vstr_embedded hfull, placeholder_sub]
  conv =>
    lhs
    rw [hdata]
  rw [sub_decomp_one o pre hpre h1 h2 (mid.data ++ ((tokStr tid2 f2).data ++ post.data))]
  rw [sub_aux_clean o mid.data ((tokStr tid2 f2).data ++ post.data) _ hmid le_rfl]
  rw [sub_aux_tok o h3 h4 post.data _ le_rfl, sub_aux_id o hpost]
  refine congrArg _ (congrArg _ (string_data_inj ?_))
  simp [String.data_append]

/-- Claim C3 (counterexample): the spec's token syntax for exact-match
substitution is the bare path `outputs.producer.x`, but on that exact
string, with the producer output `{"x": 42}` recorded, `resolve_placeholders`
returns the string unchanged rather than the integer 42: the code's token
syntax requires the `${...}` delimiters (`_PLACEHOLDER_RE`). -/
theorem C3_counterexample :
    resolve_placeholders (.vstr "outputs.producer.x")
        [("producer", ⟨0, "", "", .vdict [("x", .vint 42)]⟩)] =
      .ok (.vstr "outputs.producer.x") ∧
    Value.vstr "outputs.producer.x" ≠ Value.vint 42 := by
  constructor
  · rfl
  · intro h
    cases h

/-- Claim C3 (amended): for every run context in which task `producer` has
recorded return value `{"x": 42}`, a task field whose entire string is
exactly the delimited reference token `${outputs.producer.x}` resolves to
the raw integer 42, not a string. -/
theorem C3_exact_match_preserves_type {outputs : Outputs} {r : TaskResult}
    (hp : pyDictGet outputs "producer" = some r)
    (hr : r.return_value = .vdict [("x", .vint 42)]) :
    resolve_placeholders (.vstr (tokStr "producer" "x")) outputs = .ok (.vint 42) := by
  have hparse : parse_placeholder (tokStr "producer" "x").data =
      some ("producer", "x", []) := by
    have := @parse_placeholder_token "producer" "x"
      (by constructor <;> decide) (by constructor <;> decide) []
    simpa using this
  rw [resolve_vstr_full hparse, get_output_field, hp]
  dsimp only
  rw [hr]
  rfl

/-- Witness for the amended C3 at a concrete run context. -/
theorem C3_exact_match_preserves_type_witness :
    resolve_placeholders (.vstr (tokStr "producer" "x"))
        [("producer", ⟨0, "", "", .vdict [("x", .vint 42)]⟩)] = .ok (.vint 42) :=
  C3_exact_match_preserves_type rfl rfl

/-- Claim C4: embedded placeholder substitution never raises.  A reference
token to a task id absent from the run context, occurring as a proper
substring of a larger string, is left as its literal unresolved text; and
each of several tokens in one string is resolved independently (the second
token gets its own `_sub` replacement regardless of the first). -/
theorem C4_embedded_never_raises :
    (∀ (outputs : Outputs) (pre post tid fld : String),
      NoDollar pre.data → NoDollar post.data → ValidId tid → ValidField fld →
      pyDictGet outputs tid = none → (pre ≠ "" ∨ post ≠ "") →
      resolve_placeholders (.vstr (pre ++ tokStr tid fld ++ post)) outputs =
        .ok (.vstr (pre ++ tokStr tid fld ++ post))) ∧
    (∀ (outputs : Outputs) (pre mid post tid1 f1 tid2 f2 : String),
      NoDollar pre.data → NoDollar mid.data → NoDollar post.data →
      ValidId tid1 → ValidField f1 → ValidId tid2 → ValidField f2 →
      pyDictGet outputs tid1 = none →
      resolve_placeholders
          (.vstr (pre ++ tokStr tid1 f1 ++ mid ++ tokStr tid2 f2 ++ post)) outputs =
        .ok (.vstr (pre ++ tokStr tid1 f1 ++ mid ++
          String.mk (subRepl outputs tid2 f2) ++ post))) := by
  constructor
  · intro o pre post tid fld hpre hpost h1 h2 habs hne
    rw [embedded_single o pre post hpre hpost h1 h2 hne, subRepl_absent habs,
      stringMk_data]
  · intro o pre mid post tid1 f1 tid2 f2 hpre hmid hpost h1 h2 h3 h4 habs
    rw [embedded_double o pre mid post hpre hmid hpost h1 h2 h3 h4,
      subRepl_absent habs, stringMk_data]

/-- Witness for C4 at concrete strings and run contexts. -/
theorem C4_embedded_never_raises_witness :
    resolve_placeholders (.vstr ("Value: " ++ tokStr "nope" "return_value" ++ "")) [] =
      .ok (.vstr ("Value: " ++ tokStr "nope" "return_value" ++ "")) ∧
    resolve_placeholders
        (.vstr ("a " ++ tokStr "gone" "x" ++ " b " ++ tokStr "p" "y" ++ " c"))
        [("p", ⟨0, "", "", .vdict [("y", .vint 7)]⟩)] =
      .ok (.vstr ("a " ++ tokStr "gone" "x" ++ " b " ++
        String.mk (subRepl [("p", ⟨0, "", "", .vdict [("y", .vint 7)]⟩)] "p" "y") ++
        " c")) :=
  ⟨C4_embedded_never_raises.1 [] "Value: " "" "nope" "return_value"
      (by decide) (by decide) (by decide) (by decide) rfl (Or.inl (by decide)),
   C4_embedded_never_raises.2 [("p", ⟨0, "", "", .vdict [("y", .vint 7)]⟩)]
      "a " " b " " c" "gone" "x" "p" "y"
      (by decide) (by decide) (by decide) (by decide) (by decide) (by decide)
      (by decide) rfl⟩

/-- Claim C5: a string that is exactly one reference token naming a task id
absent from the run context makes `resolve_placeholders` raise the
`KeyError` of `_get_output_field`; and `run_job` catches the resolution
error, dispatches the task using its original unresolved definition, and
continues with the remaining tasks. -/
theorem C5_exact_missing_raises_run_continues :
    (∀ (outputs : Outputs) (tid fld : String), ValidId tid → ValidField fld →
      pyDictGet outputs tid = none →
      resolve_placeholders (.vstr (tokStr tid fld)) outputs =
        .error ("No outputs for task " ++ sqStr ++ tid ++ sqStr)) ∧
    (∀ (backend : BackendCall → TaskResult) (isWin dry_run ignore_deps : Bool)
      (st : RunState) (t : Task) (e : String),
      resolve_task st.outputs t = .error e →
      (!t.depends_on.isEmpty && !ignore_deps &&
        t.depends_on.any (depFailed st.outputs)) = false →
      run_step backend isWin dry_run ignore_deps st t =
        ⟨st.outputs ++ [(t.id, (run_task backend isWin t dry_run).1)],
         st.dispatched ++ [t.id],
         st.calls ++ (run_task backend isWin t dry_run).2⟩) ∧
    (∀ (backend : BackendCall → TaskResult) (isWin dry_run ignore_deps : Bool)
      (st : RunState) (t : Task) (rest : List Task),
      run_tasks backend isWin dry_run ignore_deps st (t :: rest) =
        run_tasks backend isWin dry_run ignore_deps
          (run_step backend isWin dry_run ignore_deps st t) rest) := by
  refine ⟨?_, ?_, ?_⟩
  · intro o tid fld h1 h2 habs
    have hparse : parse_placeholder (tokStr tid fld).data = some (tid, fld, []) := by
      have := parse_placeholder_token h1 h2 []
      simpa using this
    rw [resolve_vstr_full hparse, get_output_field, habs]
  · intro backend isWin dry_run ignore_deps st t e hres hskip
    rw [run_step, resolvedTask, hres]
    dsimp only
    rw [if_neg (by rw [hskip]; exact Bool.false_ne_true)]
  · intro backend isWin dry_run ignore_deps st t rest
    rfl

/-- Witness for C5: a missing-task exact token raises, and a shell task
whose command is such a token is dispatched with its original command. -/
theorem C5_exact_missing_raises_run_continues_witness :
    resolve_placeholders (.vstr (tokStr "nope" "x")) [] =
      .error ("No outputs for task " ++ sqStr ++ "nope" ++ sqStr) ∧
    run_step (fun _ => ⟨0, "", "", .vnull⟩) false false false ⟨[], [], []⟩
        { id := "c", type := "shell", command := some (.vstr (tokStr "gone" "x")) } =
      ⟨[("c", (run_task (fun _ => ⟨0, "", "", .vnull⟩) false
          { id := "c", type := "shell", command := some (.vstr (tokStr "gone" "x")) }
          false).1)],
       ["c"],
       (run_task (fun _ => ⟨0, "", "", .vnull⟩) false
          { id := "c", type := "shell", command := some (.vstr (tokStr "gone" "x")) }
          false).2⟩ :=
  ⟨C5_exact_missing_raises_run_continues.1 [] "nope" "x" (by decide) (by decide) rfl,
   C5_exact_missing_raises_run_continues.2.1 (fun _ => ⟨0, "", "", .vnull⟩)
     false false false ⟨[], [], []⟩
     { id := "c", type := "shell", command := some (.vstr (tokStr "gone" "x")) }
     ("No outputs for task " ++ sqStr ++ "gone" ++ sqStr) (by rfl) rfl⟩

/-- One failing descent step: the current value is not a dict, or the path
segment is missing from it. -/
def stepFails : Value → String → Prop
  | .vdict kvs, p => pyDictGet kvs p = none
  | _, _ => True

theorem descend_null : ∀ b : List String, descend .vnull b = .vnull := by
  intro b
  cases b <;> rfl

theorem descend_append (a b : List String) :
    ∀ cur : Value, descend cur (a ++ b) = descend (descend cur a) b := by
  induction a with
  | nil => intro cur; cases cur <;> rfl
  | cons p ps ih =>
    intro cur
    cases cur with
    | vdict kvs =>
      rw [List.cons_append]
      dsimp only [descend]
      cases hk : pyDictGet kvs p with
      | some v => exact ih v
      | none => exact (descend_null b).symm
    | vnull =>
      rw [List.cons_append]
      exact (descend_null b).symm
    | vbool x =>
      rw [List.cons_append]
      exact (descend_null b).symm
    | vint x =>
      rw [List.cons_append]
      exact (descend_null b).symm
    | vstr x =>
      rw [List.cons_append]
      exact (descend_null b).symm
    | vlist x =>
      rw [List.cons_append]
      exact (descend_null b).symm

theorem get_output_field_present {o : Outputs} {tid : String} {r : TaskResult}
    (h : pyDictGet o tid = some r) (fld : String) :
    ∃ v, get_output_field o tid fld = .ok v := by
  rw [get_output_field, h]
  dsimp only
  cases r.return_value <;> dsimp only <;> (repeat' split) <;> exact ⟨_, rfl⟩

theorem get_output_field_null {o : Outputs} {tid : String} {r : TaskResult}
    (h : pyDictGet o tid = some r) (hr : r.return_value = .vnull) (fld : String) :
    get_output_field o tid fld = .ok .vnull := by
  rw [get_output_field, h]
  dsimp only
  rw [hr]

/-- Claim C10: when the referenced task id is present, placeholder
resolution never signals an error even when the field path cannot be
followed: a `None` return value, a missing path segment, or a non-dict
intermediate all make `_get_output_field` return `None`; exact mode then
yields the raw `None`, and embedded mode substitutes the text `"None"`. -/
theorem C10_present_path_failure_yields_none :
    ∀ (outputs : Outputs) (tid : String) (r : TaskResult),
      pyDictGet outputs tid = some r →
      (∀ fld : String, ∃ v, get_output_field outputs tid fld = .ok v) ∧
      (r.return_value = .vnull →
        ∀ fld : String, get_output_field outputs tid fld = .ok .vnull) ∧
      (∀ (cur : Value) (ps1 : List String) (p : String) (ps2 : List String),
        stepFails (descend cur ps1) p → descend cur (ps1 ++ p :: ps2) = .vnull) ∧
      (∀ fld : String, ValidId tid → ValidField fld →
        ∃ v, get_output_field outputs tid fld = .ok v ∧
          resolve_placeholders (.vstr (tokStr tid fld)) outputs = .ok v) ∧
      (∀ (fld pre post : String), ValidId tid → ValidField fld →
        NoDollar pre.data → NoDollar post.data → (pre ≠ "" ∨ post ≠ "") →
        get_output_field outputs tid fld = .ok .vnull →
        resolve_placeholders (.vstr (pre ++ tokStr tid fld ++ post)) outputs =
          .ok (.vstr (pre ++ "None" ++ post))) := by
  intro o tid r hp
  refine ⟨get_output_field_present hp, ?_, ?_, ?_, ?_⟩
  · intro hrv fld
    exact get_output_field_null hp hrv fld
  · intro cur ps1 p ps2 hf
    rw [descend_append ps1 (p :: ps2) cur]
    cases hc : descend cur ps1 with
    | vdict kvs =>
      rw [hc] at hf
      dsimp only [descend]
      rw [hf]
    | vnull => rfl
    | vbool x => rfl
    | vint x => rfl
    | vstr x => rfl
    | vlist x => rfl
  · intro fld h1 h2
    obtain ⟨v, hv⟩ := get_output_field_present hp fld
    refine ⟨v, hv, ?_⟩
    have hparse : parse_placeholder (tokStr tid fld).data = some (tid, fld, []) := by
      have := parse_placeholder_token h1 h2 []
      simpa using this
    rw [resolve_vstr_full hparse, hv]
  · intro fld pre post h1 h2 hpre hpost hne hnull
    rw [embedded_single o pre post hpre hpost h1 h2 hne, subRepl_ok hnull]
    rfl

/-! ## Lemmas about the `run_job` loop -/

theorem resolve_task_id_deps {o : Outputs} {t t2 : Task}
    (h : resolve_task o t = .ok t2) : t2.id = t.id ∧ t2.depends_on = t.depends_on := by
  rw [resolve_task] at h
  split at h
  · injection h with h2
    subst h2
    exact ⟨rfl, rfl⟩
  · cases h
  · cases h
  · cases h
  · cases h

theorem resolvedTask_id (o : Outputs) (t0 : Task) : (resolvedTask o t0).id = t0.id := by
  rw [resolvedTask]
  split
  · next t2 h => exact (resolve_task_id_deps h).1
  · rfl

theorem resolvedTask_deps (o : Outputs) (t0 : Task) :
    (resolvedTask o t0).depends_on = t0.depends_on := by
  rw [resolvedTask]
  split
  · next t2 h => exact (resolve_task_id_deps h).2
  · rfl

/-- Normal form of one loop iteration: either the skip record or the
dispatch record, keyed by the (unchanged) task id and guarded by the
(unchanged) dependency list. -/
theorem run_step_cases (backend : BackendCall → TaskResult) (isWin dry_run ignore_deps : Bool)
    (st : RunState) (t0 : Task) :
    run_step backend isWin dry_run ignore_deps st t0 =
      if (!t0.depends_on.isEmpty && !ignore_deps &&
          t0.depends_on.any (depFailed st.outputs))
      then { st with outputs := st.outputs ++ [(t0.id, skipResult)] }
      else { outputs := st.outputs ++
               [(t0.id, (run_task backend isWin (resolvedTask st.outputs t0) dry_run).1)],
             dispatched := st.dispatched ++ [t0.id],
             calls := st.calls ++
               (run_task backend isWin (resolvedTask st.outputs t0) dry_run).2 } := by
  rw [run_step]
  dsimp only
  rw [resolvedTask_deps, resolvedTask_id]

theorem run_tasks_append (backend : BackendCall → TaskResult) (isWin dry_run ignore_deps : Bool)
    (st : RunState) (l1 l2 : List Task) :
    run_tasks backend isWin dry_run ignore_deps st (l1 ++ l2) =
      run_tasks backend isWin dry_run ignore_deps
        (run_tasks backend isWin dry_run ignore_deps st l1) l2 := by
  rw [run_tasks, run_tasks, run_tasks, List.foldl_append]

theorem run_tasks_cons (backend : BackendCall → TaskResult) (isWin dry_run ignore_deps : Bool)
    (st : RunState) (t : Task) (l : List Task) :
    run_tasks backend isWin dry_run ignore_deps st (t :: l) =
      run_tasks backend isWin dry_run ignore_deps
        (run_step backend isWin dry_run ignore_deps st t) l := rfl

theorem pyDictGet_append {α : Type} (o1 o2 : List (String × α)) (k : String) :
    pyDictGet (o1 ++ o2) k = (pyDictGet o2 k).or (pyDictGet o1 k) := by
  rw [pyDictGet, pyDictGet, pyDictGet, List.reverse_append, List.lookup_append]

theorem pyDictGet_snoc_eq {α : Type} (o : List (String × α)) (k : String) (r : α) :
    pyDictGet (o ++ [(k, r)]) k = some r := by
  rw [pyDictGet_append]
  have h1 : pyDictGet [(k, r)] k = some r := by
    rw [pyDictGet, show ([(k, r)] : List (String × α)).reverse = [(k, r)] from rfl,
      List.lookup, beq_self_eq_true]
  rw [h1]
  rfl

theorem pyDictGet_snoc_ne {α : Type} (o : List (String × α)) {a k : String} (h : a ≠ k)
    (r : α) : pyDictGet (o ++ [(a, r)]) k = pyDictGet o k := by
  rw [pyDictGet_append]
  have hba : (k == a) = false := beq_eq_false_iff_ne.2 (Ne.symm h)
  have h1 : pyDictGet [(a, r)] k = none := by
    rw [pyDictGet, show ([(a, r)] : List (String × α)).reverse = [(a, r)] from rfl,
      List.lookup, hba]
    rfl
  rw [h1]
  rfl

/-- Tasks whose ids differ from `k` never touch the recording at `k` nor
dispatch `k`. -/
theorem run_tasks_untouched (backend : BackendCall → TaskResult)
    (isWin dry_run ignore_deps : Bool) :
    ∀ (l : List Task) (st : RunState) (k : String), (∀ u ∈ l, u.id ≠ k) →
      pyDictGet (run_tasks backend isWin dry_run ignore_deps st l).outputs k =
        pyDictGet st.outputs k ∧
      (k ∈ (run_tasks backend isWin dry_run ignore_deps st l).dispatched ↔
        k ∈ st.dispatched) := by
  intro l
  induction l with
  | nil => intro st k h; exact ⟨rfl, Iff.rfl⟩
  | cons t l2 ih =>
    intro st k h
    have hne : t.id ≠ k := h t (by simp)
    rw [run_tasks_cons, run_step_cases]
    split
    · have := ih { st with outputs := st.outputs ++ [(t.id, skipResult)] } k
        (fun u hu => h u (by simp [hu]))
      rw [this.1, this.2]
      exact ⟨pyDictGet_snoc_ne st.outputs hne skipResult, Iff.rfl⟩
    · have := ih ⟨st.outputs ++
          [(t.id, (run_task backend isWin (resolvedTask st.outputs t) dry_run).1)],
          st.dispatched ++ [t.id],
          st.calls ++ (run_task backend isWin (resolvedTask st.outputs t) dry_run).2⟩ k
        (fun u hu => h u (by simp [hu]))
      rw [this.1, this.2]
      constructor
      · exact pyDictGet_snoc_ne st.outputs hne _
      · simp [List.mem_append, Ne.symm hne]

/-- Every dispatched id comes from the initial trace or from the task
list. -/
theorem run_tasks_dispatched_sub (backend : BackendCall → TaskResult)
    (isWin dry_run ignore_deps : Bool) :
    ∀ (l : List Task) (st : RunState) (x : String),
      x ∈ (run_tasks backend isWin dry_run ignore_deps st l).dispatched →
      x ∈ st.dispatched ∨ x ∈ l.map Task.id := by
  intro l
  induction l with
  | nil => intro st x h; exact Or.inl h
  | cons t l2 ih =>
    intro st x h
    rw [run_tasks_cons, run_step_cases] at h
    split at h
    · rcases ih _ x h with h2 | h2
      · exact Or.inl h2
      · exact Or.inr (by simp [h2])
    · rcases ih _ x h with h2 | h2
      · rcases List.mem_append.1 h2 with h3 | h3
        · exact Or.inl h3
        · exact Or.inr (by simp at h3; simp [h3])
      · exact Or.inr (by simp [h2])

/-- Witness for C10 at a concrete run context whose producer recorded a
`None` return value. -/
theorem C10_present_path_failure_yields_none_witness :
    (∀ fld : String, ∃ v,
      get_output_field [("p", ⟨0, "", "", .vnull⟩)] "p" fld = .ok v) ∧
    ((⟨0, "", "", .vnull⟩ : TaskResult).return_value = .vnull →
      ∀ fld : String, get_output_field [("p", ⟨0, "", "", .vnull⟩)] "p" fld = .ok .vnull) ∧
    (∀ (cur : Value) (ps1 : List String) (p : String) (ps2 : List String),
      stepFails (descend cur ps1) p → descend cur (ps1 ++ p :: ps2) = .vnull) ∧
    (∀ fld : String, ValidId "p" → ValidField fld →
      ∃ v, get_output_field [("p", ⟨0, "", "", .vnull⟩)] "p" fld = .ok v ∧
        resolve_placeholders (.vstr (tokStr "p" fld)) [("p", ⟨0, "", "", .vnull⟩)] = .ok v) ∧
    (∀ (fld pre post : String), ValidId "p" → ValidField fld →
      NoDollar pre.data → NoDollar post.data → (pre ≠ "" ∨ post ≠ "") →
      get_output_field [("p", ⟨0, "", "", .vnull⟩)] "p" fld = .ok .vnull →
      resolve_placeholders (.vstr (pre ++ tokStr "p" fld ++ post))
          [("p", ⟨0, "", "", .vnull⟩)] =
        .ok (.vstr (pre ++ "None" ++ post))) :=
  C10_present_path_failure_yields_none [("p", ⟨0, "", "", .vnull⟩)] "p"
    ⟨0, "", "", .vnull⟩ rfl

/-- A direct dependency edge between ids declared by the task list. -/
def dependsDirect (tasks : List Task) (a b : String) : Prop :=
  ∃ u ∈ tasks, u.id = a ∧ b ∈ u.depends_on

/-- The list is in dependency order: every declared dependency of a task
appears at a strictly earlier position (what `resolve_dependencies`
produces, see C1). -/
def TopoOrdered (tasks : List Task) : Prop :=
  ∀ (i : Nat) (hi : i < tasks.length), ∀ d ∈ (tasks.get ⟨i, hi⟩).depends_on,
    ∃ j, ∃ hj : j < tasks.length, j < i ∧ (tasks.get ⟨j, hj⟩).id = d

/-- A task whose recorded dependency check fails at its own step is
recorded as skipped and never dispatched (run with the
ignore-dependencies flag off, from the empty run context). -/
theorem run_skip_at (backend : BackendCall → TaskResult) (isWin dry_run : Bool)
    {tasks : List Task} (hnd : (tasks.map Task.id).Nodup) (i : Nat) (hi : i < tasks.length)
    (hcond : (tasks.get ⟨i, hi⟩).depends_on.any
      (depFailed (run_tasks backend isWin dry_run false ⟨[], [], []⟩
        (tasks.take i)).outputs) = true) :
    pyDictGet (run_tasks backend isWin dry_run false ⟨[], [], []⟩ tasks).outputs
        (tasks.get ⟨i, hi⟩).id = some skipResult ∧
    (tasks.get ⟨i, hi⟩).id ∉
      (run_tasks backend isWin dry_run false ⟨[], [], []⟩ tasks).dispatched := by
  have hsplit : tasks.take i ++ tasks.get ⟨i, hi⟩ :: tasks.drop (i + 1) = tasks := by
    have h1 := List.take_append_drop i tasks
    have h2 : tasks.drop i = tasks.get ⟨i, hi⟩ :: tasks.drop (i + 1) := by
      rw [List.drop_eq_getElem_cons hi, List.get_eq_getElem]
    rw [← h2, h1]
  have hnd2 := hnd
  rw [← hsplit] at hnd2
  simp only [List.map_append, List.map_cons, List.nodup_append, List.nodup_cons,
    List.disjoint_cons_right] at hnd2
  have hnotake : (tasks.get ⟨i, hi⟩).id ∉ (tasks.take i).map Task.id := hnd2.2.2.1
  have hnodrop : (tasks.get ⟨i, hi⟩).id ∉ (tasks.drop (i + 1)).map Task.id := hnd2.2.1.1
  have hdropne : ∀ u ∈ tasks.drop (i + 1), u.id ≠ (tasks.get ⟨i, hi⟩).id := by
    intro u hu hcontra
    exact hnodrop (List.mem_map.2 ⟨u, hu, hcontra⟩)
  have hcnd : (!(tasks.get ⟨i, hi⟩).depends_on.isEmpty && !false &&
      (tasks.get ⟨i, hi⟩).depends_on.any
        (depFailed (run_tasks backend isWin dry_run false ⟨[], [], []⟩
          (tasks.take i)).outputs)) = true := by
    have hne : (tasks.get ⟨i, hi⟩).depends_on ≠ [] := by
      obtain ⟨d, hd, _⟩ := List.any_eq_true.1 hcond
      exact List.ne_nil_of_mem hd
    rw [List.isEmpty_eq_false.2 hne, hcond]
    rfl
  have hrun : run_tasks backend isWin dry_run false ⟨[], [], []⟩ tasks =
      run_tasks backend isWin dry_run false
        (run_step backend isWin dry_run false
          (run_tasks backend isWin dry_run false ⟨[], [], []⟩ (tasks.take i))
          (tasks.get ⟨i, hi⟩))
        (tasks.drop (i + 1)) := by
    conv_lhs => rw [← hsplit]
    rw [run_tasks_append, run_tasks_cons]
  rw [hrun, run_step_cases, if_pos hcnd]
  have hstep := run_tasks_untouched backend isWin dry_run false (tasks.drop (i + 1))
    { run_tasks backend isWin dry_run false ⟨[], [], []⟩ (tasks.take i) with
      outputs := (run_tasks backend isWin dry_run false ⟨[], [], []⟩ (tasks.take i)).outputs ++
        [((tasks.get ⟨i, hi⟩).id, skipResult)] }
    (tasks.get ⟨i, hi⟩).id hdropne
  rw [hstep.1, hstep.2]
  constructor
  · exact pyDictGet_snoc_eq _ _ _
  · intro hmem
    rcases run_tasks_dispatched_sub backend isWin dry_run false (tasks.take i)
      ⟨[], [], []⟩ (tasks.get ⟨i, hi⟩).id hmem with h3 | h3
    · cases h3
    · exact hnotake h3

/-- Transitive skip propagation: in a dependency-ordered task list with
the flag off, every task that transitively depends on a task whose
recorded result has a non-zero returncode is recorded as skipped. -/
theorem run_trans_skip (backend : BackendCall → TaskResult) (isWin dry_run : Bool)
    {tasks : List Task} (hnd : (tasks.map Task.id).Nodup) (htopo : TopoOrdered tasks)
    {fid : String} {rf : TaskResult}
    (hf : pyDictGet (run_tasks backend isWin dry_run false ⟨[], [], []⟩ tasks).outputs fid =
      some rf)
    (hrc : rf.returncode ≠ 0) :
    ∀ (i : Nat) (hi : i < tasks.length),
      Relation.TransGen (dependsDirect tasks) (tasks.get ⟨i, hi⟩).id fid →
      pyDictGet (run_tasks backend isWin dry_run false ⟨[], [], []⟩ tasks).outputs
        (tasks.get ⟨i, hi⟩).id = some skipResult := by
  intro i
  induction i using Nat.strong_induction_on with
  | _ i ih =>
    intro hi htrans
    rcases Relation.TransGen.head'_iff.1 htrans with ⟨c, hstep, hrtg⟩
    obtain ⟨u, hu, huid, hcdep⟩ := hstep
    have hut : u = tasks.get ⟨i, hi⟩ :=
      List.inj_on_of_nodup_map hnd hu (List.get_mem tasks i hi) huid
    have hcdep2 : c ∈ (tasks.get ⟨i, hi⟩).depends_on := hut ▸ hcdep
    obtain ⟨j, hj, hji, hjid⟩ := htopo i hi c hcdep2
    have hcfinal : ∃ rc2 : TaskResult,
        pyDictGet (run_tasks backend isWin dry_run false ⟨[], [], []⟩ tasks).outputs c =
          some rc2 ∧ rc2.returncode ≠ 0 := by
      rcases Relation.reflTransGen_iff_eq_or_transGen.1 hrtg with heq | htg
      · rw [heq] at hf
        exact ⟨rf, hf, hrc⟩
      · have := ih j hji hj (by rw [hjid]; exact htg)
        rw [hjid] at this
        exact ⟨skipResult, this, by decide⟩
    obtain ⟨rc2, hrc2, hrc2ne⟩ := hcfinal
    -- the final value at c is already recorded before step i
    have hcid : c = (tasks.get ⟨j, hj⟩).id := hjid.symm
    have hsplit : tasks.take i ++ tasks.drop i = tasks := List.take_append_drop i tasks
    have hdropne : ∀ u2 ∈ tasks.drop i, u2.id ≠ c := by
      have hnd2 := hnd
      rw [← hsplit] at hnd2
      simp only [List.map_append, List.nodup_append] at hnd2
      intro u2 hu2 hcontra
      have hcin : c ∈ (tasks.take i).map Task.id := by
        rw [hcid]
        refine List.mem_map.2 ⟨tasks.get ⟨j, hj⟩, ?_, rfl⟩
        have hjlt : j < (tasks.take i).length := by
          rw [List.length_take]
          omega
        have : (tasks.take i).get ⟨j, hjlt⟩ = tasks.get ⟨j, hj⟩ := by
          rw [List.get_eq_getElem, List.get_eq_getElem, List.getElem_take]
        rw [← this]
        exact List.get_mem _ j hjlt
      exact hnd2.2.2 hcin (List.mem_map.2 ⟨u2, hu2, hcontra⟩)
    have hstable := run_tasks_untouched backend isWin dry_run false (tasks.drop i)
      (run_tasks backend isWin dry_run false ⟨[], [], []⟩ (tasks.take i)) c hdropne
    have hfinal_decomp : run_tasks backend isWin dry_run false ⟨[], [], []⟩ tasks =
        run_tasks backend isWin dry_run false
          (run_tasks backend isWin dry_run false ⟨[], [], []⟩ (tasks.take i))
          (tasks.drop i) := by
      rw [← run_tasks_append, hsplit]
    have hc_at_i : pyDictGet (run_tasks backend isWin dry_run false ⟨[], [], []⟩
        (tasks.take i)).outputs c = some rc2 := by
      rw [← hstable.1, ← hfinal_decomp]
      exact hrc2
    have hcond : (tasks.get ⟨i, hi⟩).depends_on.any
        (depFailed (run_tasks backend isWin dry_run false ⟨[], [], []⟩
          (tasks.take i)).outputs) = true := by
      refine List.any_eq_true.2 ⟨c, hcdep2, ?_⟩
      rw [depFailed, hc_at_i]
      exact bne_iff_ne.2 hrc2ne
    exact (run_skip_at backend isWin dry_run hnd i hi hcond).1

/-- With the ignore-dependencies flag on, the skip branch is unreachable
and every task is handed to `run_task`, in order. -/
theorem run_tasks_dispatch_all (backend : BackendCall → TaskResult) (isWin dry_run : Bool) :
    ∀ (l : List Task) (st : RunState),
      (run_tasks backend isWin dry_run true st l).dispatched =
        st.dispatched ++ l.map Task.id := by
  intro l
  induction l with
  | nil => intro st; simp [run_tasks]
  | cons t l2 ih =>
    intro st
    rw [run_tasks_cons, run_step_cases]
    rw [if_neg (by simp)]
    rw [ih]
    simp

/-- Claim C2: with the ignore-dependency-failures flag off, every task
reached by the `run_job` loop having a declared dependency whose recorded
result has a non-zero returncode is recorded as skipped with synthetic
returncode 2 and never dispatched to a backend; because the skip record's
returncode is non-zero, skipping propagates to every transitive dependent
(in the dependency-ordered list the loop runs over); with the flag on,
every task is dispatched regardless of recorded failures. -/
theorem C2_failed_dependency_skip_propagation :
    ∀ (backend : BackendCall → TaskResult) (isWin dry_run : Bool) (tasks : List Task),
      (tasks.map Task.id).Nodup →
      ((∀ (i : Nat) (hi : i < tasks.length),
        (tasks.get ⟨i, hi⟩).depends_on.any
          (depFailed (run_tasks backend isWin dry_run false ⟨[], [], []⟩
            (tasks.take i)).outputs) = true →
        pyDictGet (run_tasks backend isWin dry_run false ⟨[], [], []⟩ tasks).outputs
            (tasks.get ⟨i, hi⟩).id = some skipResult ∧
        skipResult.returncode = 2 ∧
        (tasks.get ⟨i, hi⟩).id ∉
          (run_tasks backend isWin dry_run false ⟨[], [], []⟩ tasks).dispatched) ∧
      (TopoOrdered tasks →
        ∀ (fid : String) (rf : TaskResult),
          pyDictGet (run_tasks backend isWin dry_run false ⟨[], [], []⟩ tasks).outputs fid =
            some rf →
          rf.returncode ≠ 0 →
          ∀ t ∈ tasks, Relation.TransGen (dependsDirect tasks) t.id fid →
            pyDictGet (run_tasks backend isWin dry_run false ⟨[], [], []⟩ tasks).outputs
              t.id = some skipResult) ∧
      (run_tasks backend isWin dry_run true ⟨[], [], []⟩ tasks).dispatched =
        tasks.map Task.id) := by
  intro backend isWin dry_run tasks hnd
  refine ⟨?_, ?_, ?_⟩
  · intro i hi hcond
    have := run_skip_at backend isWin dry_run hnd i hi hcond
    exact ⟨this.1, rfl, this.2⟩
  · intro htopo fid rf hf hrc t ht htrans
    obtain ⟨n, hng⟩ := List.mem_iff_get.1 ht
    rw [← hng]
    rw [← hng] at htrans
    exact run_trans_skip backend isWin dry_run hnd htopo hf hrc n.1 n.2 htrans
  · have := run_tasks_dispatch_all backend isWin dry_run tasks ⟨[], [], []⟩
    simpa using this

/-- An example backend for witnesses: every shell invocation fails. -/
def exBackend : BackendCall → TaskResult
  | .shell _ => ⟨1, "", "", .vnull⟩
  | _ => ⟨0, "", "", .vnull⟩

/-- An example three-task chain `t1 ← t2 ← t3` for witnesses. -/
def exChain : List Task :=
  [{ id := "t1", type := "shell", command := some (.vstr "c1") },
   { id := "t2", type := "shell", command := some (.vstr "c2"), depends_on := ["t1"] },
   { id := "t3", type := "shell", command := some (.vstr "c3"), depends_on := ["t2"] }]

/-- Witness for C2: with a failing `t1`, the transitive dependent `t3` is
recorded as skipped and never dispatched; with the flag on, all three tasks
are dispatched. -/
theorem C2_failed_dependency_skip_propagation_witness :
    pyDictGet (run_tasks exBackend false false false ⟨[], [], []⟩ exChain).outputs "t3" =
      some skipResult ∧
    "t3" ∉ (run_tasks exBackend false false false ⟨[], [], []⟩ exChain).dispatched ∧
    (run_tasks exBackend false false true ⟨[], [], []⟩ exChain).dispatched =
      ["t1", "t2", "t3"] := by
  have h := C2_failed_dependency_skip_propagation exBackend false false exChain (by decide)
  have h1 := h.1 2 (by decide) (by decide)
  exact ⟨h1.1, h1.2.2, h.2.2⟩

theorem run_task_dry (backend : BackendCall → TaskResult) (isWin : Bool) (t : Task) :
    run_task backend isWin t true = (noopResult, []) := rfl

/-- In dry-run mode every recorded result is the no-op success result, the
dependency check therefore never fires, every task is handed to `run_task`,
and no backend invocation is ever made. -/
theorem run_tasks_dry (backend : BackendCall → TaskResult) (isWin ignore_deps : Bool) :
    ∀ (l : List Task) (st : RunState), (∀ p ∈ st.outputs, p.2 = noopResult) →
      (run_tasks backend isWin true ignore_deps st l).outputs =
        st.outputs ++ l.map (fun t => (t.id, noopResult)) ∧
      (run_tasks backend isWin true ignore_deps st l).dispatched =
        st.dispatched ++ l.map Task.id ∧
      (run_tasks backend isWin true ignore_deps st l).calls = st.calls := by
  intro l
  induction l with
  | nil => intro st hinv; simp [run_tasks]
  | cons t l2 ih =>
    intro st hinv
    have hnofail : ∀ d, depFailed st.outputs d = false := by
      intro d
      rw [depFailed]
      cases hd : pyDictGet st.outputs d with
      | none => rfl
      | some r =>
        have hr := hinv _ (pyDictGet_mem hd)
        dsimp only
        dsimp only at hr
        rw [hr]
        decide
    rw [run_tasks_cons, run_step_cases]
    rw [if_neg ?hno]
    case hno =>
      intro hcontra
      rw [Bool.and_eq_true, Bool.and_eq_true] at hcontra
      obtain ⟨d, hd, hdf⟩ := List.any_eq_true.1 hcontra.2
      rw [hnofail d] at hdf
      cases hdf
    rw [run_task_dry]
    have hstep := ih ⟨st.outputs ++ [(t.id, noopResult)], st.dispatched ++ [t.id],
        st.calls ++ []⟩ ?hinv2
    case hinv2 =>
      intro p hp
      rcases List.mem_append.1 hp with h1 | h1
      · exact hinv p h1
      · simp at h1
        rw [h1]
    rw [hstep.1, hstep.2.1, hstep.2.2]
    simp

/-- Claim C6: in dry-run mode `run_task` returns the no-op success result
`{returncode 0, stdout "", stderr "", return_value None}` for every task
without invoking any execution backend, and the `run_job` loop records this
result for every task of the job (every task is reached: with all recorded
returncodes zero the skip branch never fires). -/
theorem C6_dry_run_no_backend :
    noopResult = ⟨0, "", "", .vnull⟩ ∧
    (∀ (backend : BackendCall → TaskResult) (isWin : Bool) (t : Task),
      run_task backend isWin t true = (noopResult, [])) ∧
    (∀ (backend : BackendCall → TaskResult) (isWin ignore_deps : Bool) (tasks : List Task),
      (run_tasks backend isWin true ignore_deps ⟨[], [], []⟩ tasks).outputs =
        tasks.map (fun t => (t.id, noopResult)) ∧
      (run_tasks backend isWin true ignore_deps ⟨[], [], []⟩ tasks).dispatched =
        tasks.map Task.id ∧
      (run_tasks backend isWin true ignore_deps ⟨[], [], []⟩ tasks).calls = []) := by
  refine ⟨rfl, fun _ _ _ => rfl, ?_⟩
  intro backend isWin ignore_deps tasks
  have := run_tasks_dry backend isWin ignore_deps tasks ⟨[], [], []⟩ (by intro p hp; cases hp)
  simpa using this

/-! ## Lemmas about `resolve_dependencies` -/

theorem pyDictGet_cons {α : Type} (a : String) (b : α) (l : List (String × α)) (k : String) :
    pyDictGet ((a, b) :: l) k = (pyDictGet l k).or (pyDictGet [(a, b)] k) := by
  rw [show ((a, b) :: l) = [(a, b)] ++ l from rfl, pyDictGet_append]

/-- An id present among the task ids is found by the task-map lookup. -/
theorem taskMap_isSome {tasks : List Task} {d : String} (h : d ∈ tasks.map Task.id) :
    ∃ td, pyDictGet (tasks.map (fun t => (t.id, t))) d = some td := by
  induction tasks with
  | nil => cases h
  | cons t ts ih =>
    rw [List.map_cons, pyDictGet_cons]
    rcases List.mem_cons.1 h with h1 | h1
    · cases ho : pyDictGet (ts.map (fun t => (t.id, t))) d with
      | some td => exact ⟨td, rfl⟩
      | none =>
        refine ⟨t, ?_⟩
        show pyDictGet [(t.id, t)] d = some t
        rw [h1]
        exact pyDictGet_snoc_eq [] t.id t
    · obtain ⟨td, htd⟩ := ih h1
      exact ⟨td, by rw [htd]; rfl⟩

/-- The finite set of declared task ids. -/
def idSet (tasks : List Task) : Finset String := (tasks.map Task.id).toFinset

/-- The recursion measure of `visit`: how many declared ids have rank at
most the rank of the visited task. -/
def msr (tasks : List Task) (rank : String → Nat) (t : Task) : Nat :=
  ((idSet tasks).filter (fun a => rank a ≤ rank t.id)).card

theorem msr_pos {tasks : List Task} (rank : String → Nat) {t : Task} (ht : t ∈ tasks) :
    1 ≤ msr tasks rank t := by
  rw [msr]
  refine Finset.card_pos.2 ⟨t.id, Finset.mem_filter.2 ⟨?_, le_rfl⟩⟩
  exact List.mem_toFinset.2 (List.mem_map.2 ⟨t, ht, rfl⟩)

theorem msr_lt {tasks : List Task} (rank : String → Nat) {t td : Task}
    (ht : t ∈ tasks) (hlt : rank td.id < rank t.id) :
    msr tasks rank td < msr tasks rank t := by
  rw [msr, msr]
  refine Finset.card_lt_card ?_
  have hsub : (idSet tasks).filter (fun a => rank a ≤ rank td.id) ⊆
      (idSet tasks).filter (fun a => rank a ≤ rank t.id) := by
    intro a ha
    rw [Finset.mem_filter] at ha ⊢
    exact ⟨ha.1, le_of_lt (lt_of_le_of_lt ha.2 hlt)⟩
  refine (Finset.ssubset_iff_of_subset hsub).2 ⟨t.id, ?_, ?_⟩
  · exact Finset.mem_filter.2 ⟨List.mem_toFinset.2 (List.mem_map.2 ⟨t, ht, rfl⟩), le_rfl⟩
  · intro hc
    rw [Finset.mem_filter] at hc
    omega

theorem msr_le {tasks : List Task} (rank : String → Nat) (t : Task) :
    msr tasks rank t ≤ tasks.length := by
  calc msr tasks rank t ≤ (idSet tasks).card := Finset.card_filter_le _ _
    _ ≤ (tasks.map Task.id).length := List.toFinset_card_le _
    _ = tasks.length := by rw [List.length_map]

/-- Invariant of the `visit` recursion state. -/
structure VisitInv (tasks : List Task) (st : VisitState) : Prop where
  sync : ∀ a, a ∈ st.seen ↔ a ∈ st.resolved.map Task.id
  sub : ∀ t ∈ st.resolved, t ∈ tasks
  nodup : (st.resolved.map Task.id).Nodup
  topo : TopoOrdered st.resolved

theorem topo_nil : TopoOrdered [] := by
  intro i hi
  simp at hi

/-- Appending a task whose dependencies are already present preserves
dependency order. -/
theorem topo_append {l : List Task} {t : Task} (hl : TopoOrdered l)
    (ht : ∀ d ∈ t.depends_on, d ∈ l.map Task.id) : TopoOrdered (l ++ [t]) := by
  intro i hi d hd
  have hi2 : i < l.length + 1 := by
    have h0 := hi
    rw [List.length_append, List.length_singleton] at h0
    exact h0
  by_cases hlt : i < l.length
  · have hget : (l ++ [t]).get ⟨i, hi⟩ = l.get ⟨i, hlt⟩ := by
      rw [List.get_eq_getElem, List.get_eq_getElem]
      exact List.getElem_append_left hlt
    rw [hget] at hd
    obtain ⟨j, hj, hji, hjd⟩ := hl i hlt d hd
    refine ⟨j, by rw [List.length_append]; omega, hji, ?_⟩
    have hgj : (l ++ [t]).get ⟨j, by rw [List.length_append]; omega⟩ = l.get ⟨j, hj⟩ := by
      rw [List.get_eq_getElem, List.get_eq_getElem]
      exact List.getElem_append_left hj
    rw [hgj, hjd]
  · have hieq : i = l.length := by omega
    have hget : (l ++ [t]).get ⟨i, hi⟩ = t := by
      rw [List.get_eq_getElem]
      exact List.getElem_concat_length l t i hieq _
    rw [hget] at hd
    obtain ⟨u, hu, huid⟩ := List.mem_map.1 (ht d hd)
    obtain ⟨n, hn⟩ := List.mem_iff_get.1 hu
    refine ⟨n.1, by rw [List.length_append]; omega, by omega, ?_⟩
    have hgn : (l ++ [t]).get ⟨n.1, by rw [List.length_append]; omega⟩ = l.get n := by
      rw [List.get_eq_getElem, List.get_eq_getElem]
      exact List.getElem_append_left n.2
    rw [hgn, hn, huid]

/-- Soundness of `visit`: with enough fuel (any rank-respecting measure
bound), visiting a task from an invariant-respecting state succeeds,
preserves the invariant, only appends to the output, marks the task seen,
and only adds ids of rank at most the visited task's rank. -/
theorem visit_sound {tasks : List Task} (rank : String → Nat)
    (hdeps : ∀ t ∈ tasks, ∀ d ∈ t.depends_on, d ∈ tasks.map Task.id)
    (hrank : ∀ t ∈ tasks, ∀ d ∈ t.depends_on, rank d < rank t.id) :
    ∀ n : Nat, ∀ t ∈ tasks, ∀ st : VisitState, msr tasks rank t ≤ n →
      VisitInv tasks st →
      ∃ st2, visit (tasks.map (fun u => (u.id, u))) n t st = .ok st2 ∧
        VisitInv tasks st2 ∧
        (∃ add, st2.resolved = st.resolved ++ add) ∧
        (∀ a ∈ st.seen, a ∈ st2.seen) ∧
        t.id ∈ st2.seen ∧
        (∀ a ∈ st2.seen, a ∈ st.seen ∨ rank a ≤ rank t.id) := by
  intro n
  induction n with
  | zero =>
    intro t ht st hm hinv
    have := msr_pos rank ht
    omega
  | succ n ih =>
    have hds : ∀ (ds : List String) (C : Nat),
        (∀ d ∈ ds, rank d < C ∧
          ∃ td, pyDictGet (tasks.map (fun u => (u.id, u))) d = some td ∧ td ∈ tasks ∧
            td.id = d ∧ msr tasks rank td ≤ n) →
        ∀ st : VisitState, VisitInv tasks st →
        ∃ st2, visitDeps (tasks.map (fun u => (u.id, u))) n ds st = .ok st2 ∧
          VisitInv tasks st2 ∧
          (∃ add, st2.resolved = st.resolved ++ add) ∧
          (∀ a ∈ st.seen, a ∈ st2.seen) ∧
          (∀ d ∈ ds, d ∈ st2.seen) ∧
          (∀ a ∈ st2.seen, a ∈ st.seen ∨ rank a < C) := by
      intro ds C hdsh
      induction ds with
      | nil =>
        intro st hinv
        refine ⟨st, ?_, hinv, ⟨[], by simp⟩, fun a ha => ha, by simp,
          fun a ha => Or.inl ha⟩
        rw [visitDeps]
      | cons d ds2 ih2 =>
        intro st hinv
        obtain ⟨hdC, td, htd, htdmem, htdid, htdm⟩ := hdsh d (by simp)
        obtain ⟨st2, hv, hinv2, hext2, hmono2, hdin, hbound2⟩ :=
          ih td htdmem st htdm hinv
        obtain ⟨st3, hv3, hinv3, hext3, hmono3, hdsin3, hbound3⟩ :=
          ih2 (fun d2 hd2 => hdsh d2 (by simp [hd2])) st2 hinv2
        refine ⟨st3, ?_, hinv3, ?_, ?_, ?_, ?_⟩
        · rw [visitDeps, htd]
          dsimp only
          rw [hv]
          dsimp only
          rw [hv3]
        · obtain ⟨a1, ha1⟩ := hext2
          obtain ⟨a2, ha2⟩ := hext3
          exact ⟨a1 ++ a2, by rw [ha2, ha1, List.append_assoc]⟩
        · exact fun a ha => hmono3 a (hmono2 a ha)
        · intro d2 hd2
          rcases List.mem_cons.1 hd2 with h1 | h1
          · subst h1
            rw [htdid] at hdin
            exact hmono3 d2 hdin
          · exact hdsin3 d2 h1
        · intro a ha
          rcases hbound3 a ha with h1 | h1
          · rcases hbound2 a h1 with h2 | h2
            · exact Or.inl h2
            · exact Or.inr (by rw [htdid] at h2; omega)
          · exact Or.inr h1
    intro t ht st hm hinv
    by_cases hseen : t.id ∈ st.seen
    · refine ⟨st, ?_, hinv, ⟨[], by simp⟩, fun a ha => ha, hseen, fun a ha => Or.inl ha⟩
      rw [visit, if_pos hseen]
    · have hdsh : ∀ d ∈ t.depends_on, rank d < rank t.id ∧
          ∃ td, pyDictGet (tasks.map (fun u => (u.id, u))) d = some td ∧ td ∈ tasks ∧
            td.id = d ∧ msr tasks rank td ≤ n := by
        intro d hd
        refine ⟨hrank t ht d hd, ?_⟩
        obtain ⟨td, htd⟩ := taskMap_isSome (hdeps t ht d hd)
        obtain ⟨htdmem, htdid⟩ := taskMap_lookup htd
        refine ⟨td, htd, htdmem, htdid, ?_⟩
        have := @msr_lt tasks rank t td ht (by rw [htdid]; exact hrank t ht d hd)
        omega
      obtain ⟨st2, hv, hinv2, hext2, hmono2, hdsin2, hbound2⟩ :=
        hds t.depends_on (rank t.id) hdsh st hinv
      have hnotseen2 : t.id ∉ st2.seen := by
        intro hc
        rcases hbound2 t.id hc with h1 | h1
        · exact hseen h1
        · omega
      refine ⟨⟨st2.resolved ++ [t], st2.seen ++ [t.id]⟩, ?_, ?_, ?_, ?_, ?_, ?_⟩
      · rw [visit, if_neg hseen, hv]
      · refine ⟨?_, ?_, ?_, ?_⟩
        · intro a
          simp only [List.mem_append, List.map_append, List.map_cons, List.map_nil,
            List.mem_singleton]
          rw [hinv2.sync a]
        · intro u hu
          rcases List.mem_append.1 hu with h1 | h1
          · exact hinv2.sub u h1
          · rw [List.mem_singleton] at h1
            subst h1
            exact ht
        · rw [List.map_append]
          simp only [List.map_cons, List.map_nil]
          rw [List.nodup_append]
          refine ⟨hinv2.nodup, List.nodup_singleton _, ?_⟩
          intro a ha hb
          rw [List.mem_singleton] at hb
          subst hb
          exact hnotseen2 ((hinv2.sync t.id).2 ha)
        · refine topo_append hinv2.topo ?_
          intro d hd
          exact (hinv2.sync d).1 (hdsin2 d hd)
      · obtain ⟨a1, ha1⟩ := hext2
        exact ⟨a1 ++ [t], by rw [ha1, List.append_assoc]⟩
      · intro a ha
        exact List.mem_append.2 (Or.inl (hmono2 a ha))
      · exact List.mem_append.2 (Or.inr (by simp))
      · intro a ha
        rcases List.mem_append.1 ha with h1 | h1
        · rcases hbound2 a h1 with h2 | h2
          · exact Or.inl h2
          · exact Or.inr (le_of_lt h2)
        · rw [List.mem_singleton] at h1
          subst h1
          exact Or.inr le_rfl

/-- Soundness of the top-level visiting loop. -/
theorem visitAll_sound {tasks : List Task} (rank : String → Nat)
    (hdeps : ∀ t ∈ tasks, ∀ d ∈ t.depends_on, d ∈ tasks.map Task.id)
    (hrank : ∀ t ∈ tasks, ∀ d ∈ t.depends_on, rank d < rank t.id) :
    ∀ (l : List Task), (∀ t ∈ l, t ∈ tasks) → ∀ st : VisitState, VisitInv tasks st →
      ∃ st2, visitAll (tasks.map (fun u => (u.id, u))) (tasks.length + 1) l st = .ok st2 ∧
        VisitInv tasks st2 ∧
        (∀ a ∈ st.seen, a ∈ st2.seen) ∧
        (∀ t ∈ l, t.id ∈ st2.seen) := by
  intro l
  induction l with
  | nil => intro hl st hinv; exact ⟨st, rfl, hinv, fun a ha => ha, by simp⟩
  | cons t ts ih =>
    intro hl st hinv
    have ht : t ∈ tasks := hl t (by simp)
    obtain ⟨st2, hv, hinv2, hext2, hmono2, hin2, hbound2⟩ :=
      visit_sound rank hdeps hrank (tasks.length + 1) t ht st
        (by have := @msr_le tasks rank t; omega) hinv
    obtain ⟨st3, hv3, hinv3, hmono3, hin3⟩ :=
      ih (fun u hu => hl u (by simp [hu])) st2 hinv2
    refine ⟨st3, ?_, hinv3, fun a ha => hmono3 a (hmono2 a ha), ?_⟩
    · rw [visitAll, hv]
      dsimp only
      rw [hv3]
    · intro u hu
      rcases List.mem_cons.1 hu with h1 | h1
      · subst h1
        exact hmono3 u.id hin2
      · exact hin3 u h1

/-- Claim C1: for every job whose tasks declare only dependencies on ids
present in the job and whose dependency graph is acyclic (witnessed by a
rank function decreasing along dependency edges), `resolve_dependencies`
succeeds and returns each input task exactly once, in an order in which
every task appears after every task named in its `depends_on` list.
Determinism/stability is inherent: the embedding is a pure function of the
input task list, so identical input order gives identical output order.
Task-id uniqueness within a job is an invariant enforced by
`validate_config` before any job runs. -/
theorem C1_resolve_dependencies_topological :
    ∀ (tasks : List Task),
      (tasks.map Task.id).Nodup →
      (∀ t ∈ tasks, ∀ d ∈ t.depends_on, d ∈ tasks.map Task.id) →
      (∃ rank : String → Nat, ∀ t ∈ tasks, ∀ d ∈ t.depends_on, rank d < rank t.id) →
      ∃ out, resolve_dependencies tasks = .ok out ∧ out.Perm tasks ∧ TopoOrdered out := by
  intro tasks hnd hdeps hacy
  obtain ⟨rank, hrank⟩ := hacy
  obtain ⟨stf, hva, hinvf, hmono, hallin⟩ :=
    visitAll_sound rank hdeps hrank tasks (fun t ht => ht) ⟨[], []⟩
      ⟨by simp, by simp, by simp, topo_nil⟩
  refine ⟨stf.resolved, ?_, ?_, hinvf.topo⟩
  · rw [resolve_dependencies]
    rw [hva]
  · have htasksnd : tasks.Nodup := List.Nodup.of_map Task.id hnd
    have hresnd : stf.resolved.Nodup := List.Nodup.of_map Task.id hinvf.nodup
    rw [List.perm_ext_iff_of_nodup hresnd htasksnd]
    intro u
    constructor
    · intro hu
      exact hinvf.sub u hu
    · intro hu
      have hid : u.id ∈ stf.seen := hallin u hu
      rw [hinvf.sync u.id] at hid
      obtain ⟨v, hv, hvid⟩ := List.mem_map.1 hid
      have : v = u :=
        List.inj_on_of_nodup_map hnd (hinvf.sub v hv) hu hvid
      rw [← this]
      exact hv

/-- Witness for C1 on a concrete two-task chain. -/
theorem C1_resolve_dependencies_topological_witness :
    ∃ out, resolve_dependencies
        [{ id := "b", type := "shell", depends_on := ["a"] },
         { id := "a", type := "shell" }] = .ok out ∧
      out.Perm [{ id := "b", type := "shell", depends_on := ["a"] },
        { id := "a", type := "shell" }] ∧ TopoOrdered out :=
  C1_resolve_dependencies_topological
    [{ id := "b", type := "shell", depends_on := ["a"] },
     { id := "a", type := "shell" }]
    (by decide) (by decide)
    ⟨fun s => if s = "a" then 0 else 1, by decide⟩

/-! ## Lemmas about task selection and config filtering -/

theorem contains_iff {l : List String} {a : String} : l.contains a = true ↔ a ∈ l :=
  List.elem_iff

/-- Claim C8: membership in the selected id set of `_select_task_ids` is:
all ids when no inclusion filter is given, else the union of ids equal to
an explicit inclusion id and ids matching an inclusion glob, minus the ids
equal to an exclusion id or matching an exclusion glob; and the filtered
task list of a job is always a sublist of (hence in the declaration order
of) the job's tasks. -/
theorem C8_select_task_ids_membership_and_order :
    (∀ (all_ids include_ids include_globs exclude_ids exclude_globs : List String)
      (i : String),
      i ∈ select_task_ids all_ids include_ids include_globs exclude_ids exclude_globs ↔
        (i ∈ all_ids ∧
         ((include_ids = [] ∧ include_globs = []) ∨ i ∈ include_ids ∨
           fnmatch_any i include_globs = true) ∧
         i ∉ exclude_ids ∧ fnmatch_any i exclude_globs = false))
    ∧ (∀ (include_tasks include_globs exclude_tasks exclude_globs : List String)
        (with_deps : Bool) (job : Job) (l : List Task),
        job_filtered_tasks include_tasks include_globs exclude_tasks exclude_globs
          with_deps job = .ok l →
        l.Sublist job.tasks) := by
  constructor
  · intro all_ids it ig et eg i
    by_cases h1 : (it.isEmpty && ig.isEmpty) = true
    · have h12 := h1
      rw [Bool.and_eq_true] at h12
      have h2 : it = [] := List.isEmpty_iff.1 h12.1
      have h3 : ig = [] := List.isEmpty_iff.1 h12.2
      subst h2; subst h3
      simp only [select_task_ids, List.isEmpty_nil, Bool.and_self, if_true,
        List.mem_filter, Bool.not_eq_true', contains_iff, fnmatch_any, List.any_nil]
      constructor
      · rintro ⟨⟨hmem, hex1⟩, hex2⟩
        exact ⟨hmem, Or.inl (by simp), by simpa using hex1, hex2⟩
      · rintro ⟨hmem, _, hex1, hex2⟩
        exact ⟨⟨hmem, by simpa using hex1⟩, hex2⟩
    · simp only [select_task_ids, if_neg h1, List.mem_filter, List.mem_append,
        Bool.not_eq_true']
      have hne : ¬(it = [] ∧ ig = []) := by
        intro ⟨ha, hb⟩
        subst ha; subst hb
        exact h1 rfl
      constructor
      · rintro ⟨⟨hsel, hex1⟩, hex2⟩
        rcases hsel with ⟨hit, hall⟩ | ⟨hall, hg⟩
        · exact ⟨contains_iff.1 hall, Or.inr (Or.inl hit),
            by simpa [contains_iff] using hex1, hex2⟩
        · exact ⟨hall, Or.inr (Or.inr hg), by simpa [contains_iff] using hex1, hex2⟩
      · rintro ⟨hmem, hinc, hex1, hex2⟩
        refine ⟨⟨?_, by simpa [contains_iff] using hex1⟩, hex2⟩
        rcases hinc with h | h | h
        · exact absurd h hne
        · exact Or.inl ⟨h, contains_iff.2 hmem⟩
        · exact Or.inr ⟨hmem, h⟩
  · intro it ig et eg wd job l h
    rw [job_filtered_tasks] at h
    dsimp only at h
    set sE := (if wd && !(select_task_ids (job.tasks.map (fun t => t.id)) it ig et eg).isEmpty
      then dependency_closure job.tasks (select_task_ids (job.tasks.map (fun t => t.id)) it ig et eg)
      else .ok (select_task_ids (job.tasks.map (fun t => t.id)) it ig et eg)) with hsE
    clear_value sE
    cases sE with
    | error e => cases h
    | ok sel =>
      simp only [Except.ok.injEq] at h
      subst h
      split
      · exact List.filter_sublist _
      · exact List.Sublist.refl _

/-- Witness for C8: task `a` is selected by the inclusion id `a`, and the
filtered task list of a two-task job is a sublist of the original. -/
theorem C8_select_task_ids_membership_and_order_witness :
    "a" ∈ select_task_ids ["a", "b"] ["a"] [] [] [] ∧
    ([{ id := "a", type := "shell" }] : List Task).Sublist
      [{ id := "a", type := "shell" }, { id := "b", type := "shell" }] :=
  ⟨(C8_select_task_ids_membership_and_order.1 ["a", "b"] ["a"] [] [] [] "a").2
      ⟨by decide, Or.inr (Or.inl (by decide)), by decide, rfl⟩,
   C8_select_task_ids_membership_and_order.2 ["a"] [] [] [] false
      { tasks := [{ id := "a", type := "shell" }, { id := "b", type := "shell" }] }
      [{ id := "a", type := "shell" }] rfl⟩

/-- Claim C7: policy of `_filter_config_by_args` on empty filtered results.
If inclusion filters were given and a job with tasks filters down to the
empty list, the job loop raises the fatal no-tasks-matched error when that
job was explicitly named via the job filter, and silently drops the job
(continuing with the remaining jobs) when jobs were selected implicitly
(empty explicit list); and if the whole loop produces no jobs, filtering is
the fatal nothing-matched error carrying the selected jobs and the
requested inclusion filters. -/
theorem C7_empty_filter_policy :
    (∀ (cfgJobs : List (String × Job)) (explicit it ig et eg : List String) (wd : Bool)
      (jid : String) (job : Job) (rest : List String),
      pyDictGet cfgJobs jid = some job →
      job.tasks.isEmpty = false →
      (it.isEmpty && ig.isEmpty) = false →
      job_filtered_tasks it ig et eg wd job = .ok [] →
      jid ∈ explicit →
      process_jobs cfgJobs explicit it ig et eg wd (jid :: rest) =
        .error (.noTasksMatched jid it ig))
    ∧ (∀ (cfgJobs : List (String × Job)) (it ig et eg : List String) (wd : Bool)
      (jid : String) (job : Job) (rest : List String),
      pyDictGet cfgJobs jid = some job →
      job.tasks.isEmpty = false →
      (it.isEmpty && ig.isEmpty) = false →
      job_filtered_tasks it ig et eg wd job = .ok [] →
      process_jobs cfgJobs [] it ig et eg wd (jid :: rest) =
        process_jobs cfgJobs [] it ig et eg wd rest)
    ∧ (∀ (config : Config) (args : FilterArgs) (explicit selected it ig : List String),
      explicit = (if args.jobs.isEmpty then [] else normalize_id_list args.jobs) →
      selected = (if args.jobs.isEmpty then config.jobs.map (fun p => p.1) else explicit) →
      it = normalize_id_list args.tasks →
      ig = normalize_id_list args.task_globs →
      config.jobs.isEmpty = false →
      explicit.find? (fun j => !(config.jobs.map (fun p => p.1)).contains j) = none →
      process_jobs config.jobs explicit it ig (normalize_id_list args.exclude_tasks)
        (normalize_id_list args.exclude_task_globs) (!args.no_deps) selected = .ok [] →
      filter_config config args = .error (.nothingMatched selected it ig)) := by
  refine ⟨?_, ?_, ?_⟩
  · intro cfgJobs explicit it ig et eg wd jid job rest hjob hne hinc hfilt hmem
    rw [process_jobs, hjob]
    dsimp only
    rw [hne]
    simp only [Bool.false_eq_true, if_false]
    rw [hfilt]
    dsimp only
    have hcnd : (!(it.isEmpty && ig.isEmpty) && List.isEmpty ([] : List Task)) = true := by
      rw [hinc]
      rfl
    rw [if_pos hcnd]
    have hcnd2 : (!explicit.isEmpty && explicit.contains jid) = true := by
      rw [List.isEmpty_eq_false.2 (List.ne_nil_of_mem hmem), contains_iff.2 hmem]
      rfl
    rw [if_pos hcnd2]
  · intro cfgJobs it ig et eg wd jid job rest hjob hne hinc hfilt
    rw [process_jobs, hjob]
    dsimp only
    rw [hne]
    simp only [Bool.false_eq_true, if_false]
    rw [hfilt]
    dsimp only
    have hcnd : (!(it.isEmpty && ig.isEmpty) && List.isEmpty ([] : List Task)) = true := by
      rw [hinc]
      rfl
    rw [if_pos hcnd]
    rw [if_neg (by rw [List.isEmpty_nil]; exact Bool.false_ne_true)]
  · intro config args explicit selected it ig he hs hit hig hne hfind hproc
    subst he; subst hs; subst hit; subst hig
    rw [filter_config, if_neg (by simp [hne])]
    dsimp only
    rw [hfind]
    dsimp only
    rw [hproc]
    rfl

/-- Witness for C7 on a one-job config whose single task matches no
inclusion id: explicit naming errors, implicit selection drops the job, and
an all-dropped run is the nothing-matched error. -/
theorem C7_empty_filter_policy_witness :
    process_jobs [("j1", { tasks := [{ id := "a", type := "shell" }] })] ["j1"] ["zzz"] [] [] []
        true ["j1"] = .error (.noTasksMatched "j1" ["zzz"] []) ∧
    process_jobs [("j1", { tasks := [{ id := "a", type := "shell" }] })] [] ["zzz"] [] [] []
        true ["j1"] =
      process_jobs [("j1", { tasks := [{ id := "a", type := "shell" }] })] [] ["zzz"] [] [] []
        true [] ∧
    filter_config { jobs := [("j1", { tasks := [{ id := "a", type := "shell" }] })] }
        { tasks := ["zzz"] } =
      .error (.nothingMatched ["j1"] ["zzz"] []) :=
  ⟨C7_empty_filter_policy.1 [("j1", { tasks := [{ id := "a", type := "shell" }] })]
      ["j1"] ["zzz"] [] [] [] true "j1" { tasks := [{ id := "a", type := "shell" }] } []
      rfl rfl rfl rfl (by decide),
   C7_empty_filter_policy.2.1 [("j1", { tasks := [{ id := "a", type := "shell" }] })]
      ["zzz"] [] [] [] true "j1" { tasks := [{ id := "a", type := "shell" }] } []
      rfl rfl rfl rfl,
   C7_empty_filter_policy.2.2 { jobs := [("j1", { tasks := [{ id := "a", type := "shell" }] })] }
      { tasks := ["zzz"] } [] ["j1"] ["zzz"] []
      rfl rfl rfl rfl rfl rfl rfl⟩

/-! ## Scanner lemmas for the kwargs regex and the shell command assembly -/

theorem kwargHead_cons : kwargHead = '$' :: "\x7bkwargs.".data := rfl

theorem kwargHead_length : kwargHead.length = 9 := rfl

/-- The kwargs token text decomposed into its scanner pieces. -/
theorem kwTokStr_data (key : String) :
    (kwTokStr key).data = kwargHead ++ (key.data ++ [closeB]) := by
  show ("$\x7bkwargs." ++ key ++ "\x7d").data = _
  simp [String.data_append, kwargHead]
  rfl

theorem parse_kwarg_none {c : Char} {cs : List Char} (h : c ≠ '$') :
    parse_kwarg (c :: cs) = none := by
  rw [parse_kwarg, kwargHead_cons]
  rw [dropLiteral, if_neg h]

/-- Matching `_KWARG_RE` at a well-formed kwargs token succeeds for any
continuation: `\x7d` is outside the key character class, so maximal-munch
recognizes exactly the token. -/
theorem parse_kwarg_token {key : String} (h1 : ValidId key) (rest : List Char) :
    parse_kwarg ((kwTokStr key).data ++ rest) = some (key, rest) := by
  have hne1 : key.data.isEmpty = false := by
    cases hd : key.data with
    | nil => exact absurd (string_empty_iff_data.2 hd) h1.1
    | cons a as => rfl
  have hspan := span_exact (p := isIdChar) key.data (closeB :: rest)
    (fun c hc => h1.2 c hc)
    (by intro c hc; injection hc with h3; subst h3; rfl)
  have hrw : (kwTokStr key).data ++ rest = kwargHead ++ (key.data ++ closeB :: rest) := by
    rw [kwTokStr_data]
    simp
  rw [hrw, parse_kwarg, dropLiteral_self]
  simp [hspan.1, hspan.2, hne1, stringMk_data]

/-- A successful `_KWARG_RE` match reconstructs the input: the matched text
is exactly the token of the captured key, which is a valid id run. -/
theorem parse_kwarg_some {l : List Char} {key : String} {rest : List Char}
    (h : parse_kwarg l = some (key, rest)) :
    l = (kwTokStr key).data ++ rest ∧ ValidId key := by
  simp only [parse_kwarg] at h
  split at h
  · cases h
  · next r0 hdrop =>
    have hl : l = kwargHead ++ r0 := dropLiteral_some hdrop
    split at h
    · cases h
    · next hne1 =>
      split at h
      · next c r2 hr1 =>
        split at h
        · next hcb =>
          subst hcb
          simp only [Option.some.injEq, Prod.mk.injEq] at h
          obtain ⟨h5, h8⟩ := h
          have hkey : key.data = r0.takeWhile isIdChar := by rw [← h5]
          subst h8
          have hvid : ValidId key := by
            refine ⟨?_, ?_⟩
            · intro hemp
              rw [string_empty_iff_data] at hemp
              rw [hkey] at hemp
              simp [hemp] at hne1
            · intro c hc
              rw [hkey] at hc
              exact List.mem_takeWhile_imp hc
          refine ⟨?_, hvid⟩
          rw [kwTokStr_data, hl]
          have hr0 : r0 = r0.takeWhile isIdChar ++ (closeB :: r2) := by
            rw [← hr1]
            exact (List.takeWhile_append_dropWhile (p := isIdChar) (l := r0)).symm
          rw [hkey]
          conv =>
            lhs
            rw [hr0]
          simp
        · cases h
      · cases h

theorem parse_kwarg_rest_lt {l : List Char} {key : String} {rest : List Char}
    (h : parse_kwarg l = some (key, rest)) : rest.length < l.length := by
  obtain ⟨hl, h1⟩ := parse_kwarg_some h
  rw [hl, kwTokStr_data]
  simp only [List.length_append, List.length_cons]
  have := kwargHead_length
  omega

theorem kwsub_aux_nil (kvs : List (String × Value)) :
    ∀ n, kwarg_sub_aux kvs n [] = [] := by
  intro n
  cases n <;> rfl

/-- The kwargs scan does not depend on the fuel once the fuel covers the
input length. -/
theorem kwsub_aux_fuel (kvs : List (String × Value)) :
    ∀ (n : Nat) (l : List Char) (m : Nat), l.length ≤ n → l.length ≤ m →
      kwarg_sub_aux kvs n l = kwarg_sub_aux kvs m l := by
  intro n
  induction n with
  | zero =>
    intro l m hn hm
    have : l = [] := List.eq_nil_of_length_eq_zero (by omega)
    subst this
    rw [kwsub_aux_nil, kwsub_aux_nil]
  | succ n ih =>
    intro l m hn hm
    cases l with
    | nil => rw [kwsub_aux_nil, kwsub_aux_nil]
    | cons c cs =>
      cases m with
      | zero => simp at hm
      | succ m2 =>
        rw [kwarg_sub_aux, kwarg_sub_aux]
        cases hp : parse_kwarg (c :: cs) with
        | none =>
          dsimp only
          simp only [List.length_cons] at hn hm
          rw [ih cs m2 (by omega) (by omega)]
        | some r =>
          obtain ⟨key, rest⟩ := r
          dsimp only
          have hlt := parse_kwarg_rest_lt hp
          simp only [List.length_cons] at hn hm hlt
          rw [ih rest m2 (by omega) (by omega)]

/-- The kwargs scan copies a `$`-free prefix unchanged. -/
theorem kwsub_aux_clean (kvs : List (String × Value)) :
    ∀ (pre rest : List Char) (n : Nat), NoDollar pre → (pre ++ rest).length ≤ n →
      kwarg_sub_aux kvs n (pre ++ rest) =
        pre ++ kwarg_sub_aux kvs rest.length rest := by
  intro pre
  induction pre with
  | nil =>
    intro rest n hnd hn
    simp only [List.nil_append] at hn ⊢
    exact kwsub_aux_fuel kvs n rest rest.length hn le_rfl
  | cons c cs ih =>
    intro rest n hnd hn
    cases n with
    | zero => simp at hn
    | succ m =>
      have hc : c ≠ '$' := hnd c (by simp)
      rw [List.cons_append, kwarg_sub_aux, parse_kwarg_none hc]
      simp only [List.length_append, List.length_cons] at hn
      rw [ih rest m (fun x hx => hnd x (by simp [hx])) (by simp [List.length_append]; omega)]
      simp

/-- The kwargs scan at a well-formed token replaces exactly the token and
resumes after it. -/
theorem kwsub_aux_tok (kvs : List (String × Value)) {key : String} (h1 : ValidId key) :
    ∀ (rest : List Char) (n : Nat), ((kwTokStr key).data ++ rest).length ≤ n →
      kwarg_sub_aux kvs n ((kwTokStr key).data ++ rest) =
        kwRepl kvs key ++ kwarg_sub_aux kvs rest.length rest := by
  intro rest n hn
  have hcons : (kwTokStr key).data ++ rest =
      '$' :: ("\x7bkwargs.".data ++ (key.data ++ closeB :: rest)) := by
    rw [kwTokStr_data, kwargHead_cons]
    simp
  have hlen : rest.length + 1 ≤ n := by
    rw [List.length_append, kwTokStr_data] at hn
    simp only [List.length_append, List.length_cons] at hn
    have := kwargHead_length
    omega
  cases n with
  | zero => omega
  | succ m =>
    rw [hcons, kwarg_sub_aux, ← hcons, parse_kwarg_token h1 rest]
    dsimp only
    rw [kwsub_aux_fuel kvs m rest rest.length (by omega) le_rfl]

/-- A `$`-free list scans to itself. -/
theorem kwsub_aux_id (kvs : List (String × Value)) {l : List Char} (h : NoDollar l) :
    kwarg_sub_aux kvs l.length l = l := by
  have := kwsub_aux_clean kvs l [] l.length h (by simp)
  simpa [kwsub_aux_nil] using this

theorem kwRepl_present {kvs : List (String × Value)} {key : String} {v : Value}
    (h : pyDictGet kvs key = some v) :
    kwRepl kvs key = (match v with | .vnull => "" | v2 => pyStr v2).data := by
  rw [kwRepl, h]

/-- `_KWARG_RE.sub` on a command made of one present-key token between two
`$`-free pieces substitutes exactly the stringified value. -/
theorem kw_sub_decomp {kvs : List (String × Value)} (pre post : List Char) {key : String}
    {v : Value} (hpre : NoDollar pre) (hpost : NoDollar post) (h1 : ValidId key)
    (hv : pyDictGet kvs key = some v) :
    kwarg_sub kvs (String.mk (pre ++ (kwTokStr key).data ++ post)) =
      String.mk (pre ++ ((match v with | .vnull => "" | v2 => pyStr v2).data ++ post)) := by
  rw [kwarg_sub]
  show String.mk (kwarg_sub_aux kvs (pre ++ (kwTokStr key).data ++ post).length
    (pre ++ (kwTokStr key).data ++ post)) = _
  rw [List.append_assoc]
  rw [kwsub_aux_clean kvs pre ((kwTokStr key).data ++ post) _ hpre (by simp)]
  rw [kwsub_aux_tok kvs h1 post ((kwTokStr key).data ++ post).length le_rfl]
  rw [kwsub_aux_id kvs hpost, kwRepl_present hv]

theorem listStartsWith_self : ∀ (p r : List Char), listStartsWith p (p ++ r) = true := by
  intro p
  induction p with
  | nil => intro r; rfl
  | cons c cs ih =>
    intro r
    rw [List.cons_append, listStartsWith]
    simp [ih]

theorem listIsInfixOf_nil_pat : ∀ l : List Char, listIsInfixOf [] l = true := by
  intro l
  cases l <;> rfl

/-- The marker substring test succeeds on any text containing the head of a
kwargs token. -/
theorem listIsInfixOf_of_decomp :
    ∀ (pre mid post : List Char), listIsInfixOf mid (pre ++ (mid ++ post)) = true := by
  intro pre
  induction pre with
  | nil =>
    intro mid post
    cases mid with
    | nil => exact listIsInfixOf_nil_pat _
    | cons c cs =>
      rw [List.nil_append, List.cons_append, listIsInfixOf]
      rw [← List.cons_append, listStartsWith_self (c :: cs) post]
      rfl
  | cons c cs ih =>
    intro mid post
    rw [List.cons_append, listIsInfixOf, ih mid post]
    simp

theorem kwargMarkerIn_decomp (pre post : List Char) (key : String) :
    kwargMarkerIn (String.mk (pre ++ (kwTokStr key).data ++ post)) = true := by
  rw [kwargMarkerIn]
  show listIsInfixOf kwargHead (pre ++ (kwTokStr key).data ++ post) = true
  have h : pre ++ (kwTokStr key).data ++ post =
      pre ++ (kwargHead ++ ((key.data ++ [closeB]) ++ post)) := by
    rw [kwTokStr_data]
    simp
  rw [h]
  exact listIsInfixOf_of_decomp pre kwargHead ((key.data ++ [closeB]) ++ post)

/-- Python `task.get("args", []) or []` on a present list value is the list
itself (the empty list is its own falsy fallback). -/
theorem truthy_list_norm (avs : List Value) :
    (if pyTruthy (.vlist avs) then Value.vlist avs else .vlist []) = .vlist avs := by
  cases avs <;> rfl

/-- Python `task.get("kwargs", {}) or {}` on a present dict value is the
dict itself. -/
theorem truthy_dict_norm (kvs : List (String × Value)) :
    (if pyTruthy (.vdict kvs) then Value.vdict kvs else .vdict []) = .vdict kvs := by
  cases kvs <;> rfl

/-- Claim C9 counterexample: the claim keys the appending of `--key value`
pairs on whether the command contains a keyword-reference token, but the
code keys it on the literal substring `$\x7bkwargs.`.  The command
`run $\x7bkwargs.\x7d` contains no well-formed token (the key capture
requires at least one id character), so by the claim every kwargs pair
should be appended; the code instead substitutes nothing and appends
nothing, because the marker substring is present. -/
theorem C9_counterexample :
    hasKwargToken "run $\x7bkwargs.\x7d" = false ∧
    shell_final_cmd false (some (.vstr "run $\x7bkwargs.\x7d")) none
        (some (.vdict [("a", .vint 1)])) = .ok "run $\x7bkwargs.\x7d" ∧
    ("run $\x7bkwargs.\x7d" : String) ≠
      "run $\x7bkwargs.\x7d" ++ " " ++ String.intercalate " "
        [quote_token_for_shell false (.vstr "--a"), quote_token_for_shell false (.vint 1)] :=
  ⟨by decide, rfl, by decide⟩

/-- Claim C9 (amended): for a shell task the decision is by the literal
substring `$\x7bkwargs.` of the command.  If the command is a well-formed
kwargs token between two `$`-free pieces and the key is present in the
kwargs mapping, the token is replaced by the stringified value (`None`
becoming the empty string), no `--key value` pairs are appended, and the
quoted positional arguments are appended; if the substring is absent, the
quoted positional arguments and then every `--key value` pair (each token
shell-quoted) are appended. -/
theorem C9_kwargs_marker_decides_substitution :
    (∀ (isWin : Bool) (kvs : List (String × Value)) (pre post : List Char) (key : String)
      (v : Value) (avs : List Value),
      NoDollar pre → NoDollar post → ValidId key → pyDictGet kvs key = some v →
      shell_final_cmd isWin (some (.vstr (String.mk (pre ++ (kwTokStr key).data ++ post))))
          (some (.vlist avs)) (some (.vdict kvs)) =
        .ok (let final := String.mk (pre ++
              ((match v with | .vnull => "" | v2 => pyStr v2).data ++ post));
             let extra := avs.map (quote_token_for_shell isWin);
             if extra.isEmpty then final else final ++ " " ++ String.intercalate " " extra))
    ∧ (∀ (isWin : Bool) (base_cmd : String) (kvs : List (String × Value)) (avs : List Value),
      kwargMarkerIn base_cmd = false →
      shell_final_cmd isWin (some (.vstr base_cmd)) (some (.vlist avs))
          (some (.vdict kvs)) =
        .ok (let extra := avs.map (quote_token_for_shell isWin) ++
              kvs.flatMap (fun kv => [quote_token_for_shell isWin (.vstr ("--" ++ kv.1)),
                quote_token_for_shell isWin kv.2]);
             if extra.isEmpty then base_cmd
             else base_cmd ++ " " ++ String.intercalate " " extra)) := by
  constructor
  · intro isWin kvs pre post key v avs hpre hpost hkey hv
    simp only [shell_final_cmd, Option.getD_some, truthy_list_norm, truthy_dict_norm,
      kwargMarkerIn_decomp, if_true, pyIter, kw_sub_decomp pre post hpre hpost hkey hv,
      List.append_nil]
  · intro isWin base_cmd kvs avs hm
    simp only [shell_final_cmd, Option.getD_some, truthy_list_norm, truthy_dict_norm,
      hm, Bool.false_eq_true, if_false, pyIter]

/-- Witness for C9 (amended): a POSIX shell command with one kwargs token
and one positional argument, and a marker-free command with one kwargs
pair needing quoting. -/
theorem C9_kwargs_marker_decides_substitution_witness :
    shell_final_cmd false
        (some (.vstr (String.mk ("echo ".data ++ (kwTokStr "k").data ++ []))))
        (some (.vlist [.vint 3])) (some (.vdict [("k", .vstr "v")])) = .ok "echo v 3" ∧
    shell_final_cmd false (some (.vstr "echo")) (some (.vlist []))
        (some (.vdict [("k", .vstr "a b")])) =
      .ok ("echo --k " ++ sqStr ++ "a b" ++ sqStr) :=
  ⟨(C9_kwargs_marker_decides_substitution.1 false [("k", .vstr "v")] "echo ".data [] "k"
      (.vstr "v") [.vint 3] (by decide) (by decide) (by decide) rfl).trans rfl,
   (C9_kwargs_marker_decides_substitution.2 false "echo" [("k", .vstr "a b")] [] rfl).trans
      rfl⟩

end Dagrunner
